import Mathlib

/-!
Verification development for the openapi-merge repository (package
`internal/merger`).  The Go source is shallowly embedded: Go maps are
modelled as association lists (`List (String × α)`) with first-match
lookup and replace-or-append write, Go nil pointers as `Option`, and
Go slices as `List`.  Byte strings are modelled as Lean `String`
(character-level; all source operations used here act the same way on
both).  The external glob matcher (`github.com/gobwas/glob`) is
modelled as an arbitrary pure function parameter.
-/

/-! ## Association-list model of Go maps -/

/-- Go map read `v, ok := m[k]`: first matching key wins. -/
def lookupA {α : Type} (l : List (String × α)) (k : String) : Option α :=
  match l with
  | [] => none
  | (a, b) :: rest => if a = k then some b else lookupA rest k

/-- Go map write `m[k] = v`: replace the value at an existing key in place,
otherwise append a new entry. -/
def setAssoc {α : Type} (l : List (String × α)) (k : String) (v : α) : List (String × α) :=
  match l with
  | [] => [(k, v)]
  | (a, b) :: rest => if a = k then (a, v) :: rest else (a, b) :: setAssoc rest k v

/-- Number of entries of an association list carrying a given key. -/
def countKey {α : Type} (l : List (String × α)) (k : String) : Nat :=
  (l.filter (fun p => p.1 = k)).length

/-- Membership of a key, as the Go `_, ok := m[k]` test. -/
def hasKey {α : Type} (l : List (String × α)) (k : String) : Bool :=
  match l with
  | [] => false
  | (a, _) :: rest => if a = k then true else hasKey rest k

/-- Application of the rename map to one `$ref` string, as done at every
ref position by the `update*Refs` family in `refs.go`:
`if ref != "" { if newRef, ok := renames[ref]; ok { ref = newRef } }`. -/
def applyRen (ren : List (String × String)) (r : String) : String :=
  if r = "" then r else
    match lookupA ren r with
    | some n => n
    | none => r

/-! ## Schema model

`openapi3.SchemaRef` is a `Ref` string plus a nullable `*Schema`; the
schema fields the merger reads or writes are the recursive positions of
`updateSchemaRefRefs` (`Items`, `Properties`, `AdditionalProperties.Schema`,
`AllOf`, `OneOf`, `AnyOf`, `Not`) and the scalar fields set by
`convertToSchemaRef` (`Type`, `Format`, `Description`). -/

mutual

inductive SchemaRef where
  | mk (ref : String) (value : Option Schema)

inductive Schema where
  | mk (typ : String) (format : String) (descr : String)
       (items : Option SchemaRef) (properties : List (String × SchemaRef))
       (addlProps : Option SchemaRef)
       (allOf : List SchemaRef) (oneOf : List SchemaRef) (anyOf : List SchemaRef)
       (nots : Option SchemaRef)

end

def SchemaRef.ref : SchemaRef → String
  | .mk r _ => r

def SchemaRef.value : SchemaRef → Option Schema
  | .mk _ v => v

/-! Boolean structural equality on the schema model (no derived instance is
available for the mutual nested inductive). -/

mutual

def beqSR : SchemaRef → SchemaRef → Bool
  | .mk r v, .mk r2 v2 => r == r2 && beqSOpt v v2

def beqSOpt : Option Schema → Option Schema → Bool
  | none, none => true
  | some a, some b => beqS a b
  | _, _ => false

def beqS : Schema → Schema → Bool
  | .mk t f d it pr ap ao oo an no, .mk t2 f2 d2 it2 pr2 ap2 ao2 oo2 an2 no2 =>
    t == t2 && f == f2 && d == d2 && beqSROpt it it2 && beqProps pr pr2 &&
      beqSROpt ap ap2 && beqSRList ao ao2 && beqSRList oo oo2 &&
      beqSRList an an2 && beqSROpt no no2

def beqSROpt : Option SchemaRef → Option SchemaRef → Bool
  | none, none => true
  | some a, some b => beqSR a b
  | _, _ => false

def beqProps : List (String × SchemaRef) → List (String × SchemaRef) → Bool
  | [], [] => true
  | (k, s) :: rest, (k2, s2) :: rest2 => k == k2 && beqSR s s2 && beqProps rest rest2
  | _, _ => false

def beqSRList : List SchemaRef → List SchemaRef → Bool
  | [], [] => true
  | s :: rest, s2 :: rest2 => beqSR s s2 && beqSRList rest rest2
  | _, _ => false

end

/-- Lexicographic strictly-less on character lists by code point; for
UTF-8 encoded strings this coincides with the byte-wise Go string
comparison. -/
def strLtList : List Char → List Char → Bool
  | [], [] => false
  | [], _ :: _ => true
  | _ :: _, [] => false
  | a :: as, b :: bs =>
    if a.toNat < b.toNat then true
    else if b.toNat < a.toNat then false
    else strLtList as bs

/-- Model of the Go string comparison `x < y`. -/
def strLt (x y : String) : Bool :=
  strLtList x.data y.data

/-- Insertion of a keyed pair into a key-sorted list (ascending), used to
model the sorted key order `encoding/json` gives to Go map entries. -/
def insertByKey (p : String × SchemaRef) : List (String × SchemaRef) → List (String × SchemaRef)
  | [] => [p]
  | q :: rest => if !(strLt q.1 p.1) then p :: q :: rest else q :: insertByKey p rest

/-- Key-sort of a property list, modelling the sorted key order in which
`encoding/json` serializes a Go map. -/
def sortByKey (l : List (String × SchemaRef)) : List (String × SchemaRef) :=
  l.foldr insertByKey []

/-! Canonical form modelling `json.Marshal` of a `SchemaRef`:
a non-empty `Ref` marshals as a bare `{"$ref": ...}` object (the value is
ignored), and map-typed fields (`Properties`) marshal with sorted keys. -/

mutual

def canonSR : SchemaRef → SchemaRef
  | .mk r none => .mk r none
  | .mk r (some s) => if r = "" then .mk r (some (canonS s)) else .mk r none

def canonS : Schema → Schema
  | .mk t f d it pr ap ao oo an no =>
    .mk t f d (canonSROpt it) (sortByKey (canonProps pr)) (canonSROpt ap)
      (canonSRList ao) (canonSRList oo) (canonSRList an) (canonSROpt no)

def canonSROpt : Option SchemaRef → Option SchemaRef
  | none => none
  | some s => some (canonSR s)

def canonProps : List (String × SchemaRef) → List (String × SchemaRef)
  | [] => []
  | (k, s) :: rest => (k, canonSR s) :: canonProps rest

def canonSRList : List SchemaRef → List SchemaRef
  | [] => []
  | s :: rest => canonSR s :: canonSRList rest

end

/-- `schemasEqual` from `merger.go`: nil handling, then reference-string
comparison when both refs are non-empty, else comparison of the JSON
serializations (modelled by structural equality of canonical forms). -/
def schemasEqual : Option SchemaRef → Option SchemaRef → Bool
  | none, none => true
  | none, some _ => false
  | some _, none => false
  | some a, some b =>
    if a.ref != "" && b.ref != "" then a.ref == b.ref
    else beqSR (canonSR a) (canonSR b)

/-! Recursive reference rewriting inside schemas (`updateSchemaRefRefs` in
`refs.go`): the ref itself, then `Items`, `Properties`,
`AdditionalProperties.Schema`, `AllOf`, `OneOf`, `AnyOf` and `Not`. -/

mutual

def updateSchemaRefRefs (ren : List (String × String)) : SchemaRef → SchemaRef
  | .mk r none => .mk (applyRen ren r) none
  | .mk r (some s) => .mk (applyRen ren r) (some (updSchemaVal ren s))

def updSchemaVal (ren : List (String × String)) : Schema → Schema
  | .mk t f d it pr ap ao oo an no =>
    .mk t f d (updSROpt ren it) (updProps ren pr) (updSROpt ren ap)
      (updSRList ren ao) (updSRList ren oo) (updSRList ren an) (updSROpt ren no)

def updSROpt (ren : List (String × String)) : Option SchemaRef → Option SchemaRef
  | none => none
  | some s => some (updateSchemaRefRefs ren s)

def updProps (ren : List (String × String)) :
    List (String × SchemaRef) → List (String × SchemaRef)
  | [] => []
  | (k, s) :: rest => (k, updateSchemaRefRefs ren s) :: updProps ren rest

def updSRList (ren : List (String × String)) : List SchemaRef → List SchemaRef
  | [] => []
  | s :: rest => updateSchemaRefRefs ren s :: updSRList ren rest

end

/-! ## Remaining component object model -/

/-- `openapi3.Parameter` (fields read or written by the merger). -/
structure Parameter where
  name : String
  inLoc : String
  descr : String
  required : Bool
  deprecated : Bool
  allowEmptyValue : Bool
  schema : Option SchemaRef

structure ParameterRef where
  ref : String
  value : Option Parameter

structure MediaType where
  schema : Option SchemaRef

structure RequestBody where
  content : List (String × MediaType)

structure RequestBodyRef where
  ref : String
  value : Option RequestBody

structure Header where
  schema : Option SchemaRef

structure HeaderRef where
  ref : String
  value : Option Header

structure Response where
  content : List (String × MediaType)
  headers : List (String × HeaderRef)

structure ResponseRef where
  ref : String
  value : Option Response

structure SecurityScheme where
  typ : String
  descr : String
  name : String
  inLoc : String
  scheme : String
  bearerFormat : String
  openIdConnectUrl : String

structure SecuritySchemeRef where
  ref : String
  value : Option SecurityScheme

structure ExampleRef where
  ref : String

structure LinkRef where
  ref : String

structure Tag where
  name : String
  descr : String

/-! `PathItem`, `Operation` and `CallbackRef` are mutually recursive in
kin-openapi: a callback value is a map from expressions to path items. -/

mutual

inductive Operation where
  | mk (tags : List String) (parameters : List ParameterRef)
       (requestBody : Option RequestBodyRef)
       (responses : List (String × ResponseRef))
       (callbacks : List (String × CallbackRef))

inductive CallbackRef where
  | mk (ref : String) (value : Option (List (String × PathItem)))

inductive PathItem where
  | mk (get : Option Operation) (post : Option Operation) (put : Option Operation)
       (delete : Option Operation) (patch : Option Operation) (head : Option Operation)
       (options : Option Operation) (trace : Option Operation)
       (parameters : List ParameterRef)

end

def Operation.tags : Operation → List String
  | .mk t _ _ _ _ => t

def Operation.parameters : Operation → List ParameterRef
  | .mk _ p _ _ _ => p

def Operation.requestBody : Operation → Option RequestBodyRef
  | .mk _ _ b _ _ => b

def Operation.responses : Operation → List (String × ResponseRef)
  | .mk _ _ _ r _ => r

def Operation.callbacks : Operation → List (String × CallbackRef)
  | .mk _ _ _ _ c => c

def PathItem.parameters : PathItem → List ParameterRef
  | .mk _ _ _ _ _ _ _ _ ps => ps

/-- The eight HTTP methods of `getOperationsMap`. -/
inductive Method where
  | get | post | put | delete | patch | head | options | trace
deriving DecidableEq, Repr

/-- Upper-case method names as used by `getOperationsMap`. -/
def methodName : Method → String
  | .get => "GET"
  | .post => "POST"
  | .put => "PUT"
  | .delete => "DELETE"
  | .patch => "PATCH"
  | .head => "HEAD"
  | .options => "OPTIONS"
  | .trace => "TRACE"

/-- The list of all eight methods (iteration domain of `getOperationsMap`). -/
def allMethods : List Method :=
  [.get, .post, .put, .delete, .patch, .head, .options, .trace]

/-- Field access on a path item by method, as `getOperationsMap` exposes it. -/
def PathItem.getOp : PathItem → Method → Option Operation
  | .mk g _ _ _ _ _ _ _ _, .get => g
  | .mk _ p _ _ _ _ _ _ _, .post => p
  | .mk _ _ pu _ _ _ _ _ _, .put => pu
  | .mk _ _ _ d _ _ _ _ _, .delete => d
  | .mk _ _ _ _ pa _ _ _ _, .patch => pa
  | .mk _ _ _ _ _ h _ _ _, .head => h
  | .mk _ _ _ _ _ _ o _ _, .options => o
  | .mk _ _ _ _ _ _ _ t _, .trace => t

/-- `openapi3.Components`: the nine component maps initialized by `Merge`. -/
structure Components where
  schemas : List (String × SchemaRef)
  responses : List (String × ResponseRef)
  parameters : List (String × ParameterRef)
  securitySchemes : List (String × SecuritySchemeRef)
  requestBodies : List (String × RequestBodyRef)
  headers : List (String × HeaderRef)
  examples : List (String × ExampleRef)
  links : List (String × LinkRef)
  callbacks : List (String × CallbackRef)

/-- The parts of `openapi3.T` the merging stages read and write. -/
structure Doc where
  paths : List (String × PathItem)
  components : Option Components
  tags : List Tag

/-! ## Configuration model (`internal/config`, fields used by the merger) -/

structure PathFilter where
  path : String
  method : String

structure OperationSelectionConfig where
  includeTags : List String
  excludeTags : List String
  includePaths : List PathFilter
  excludePaths : List PathFilter

structure PathModificationConfig where
  stripStart : String
  prepend : String

/-- Optional schema attached to an extra-parameter config; `none` for an
absent entry of the `type` / `format` / `description` keys
(`convertToSchemaRef` leaves the corresponding field zero). -/
structure ParamSchemaConfig where
  typ : String
  format : String
  descr : String

structure ParameterConfig where
  name : String
  inLoc : String
  descr : String
  required : Bool
  deprecated : Bool
  allowEmptyValue : Bool
  schema : Option ParamSchemaConfig

structure ExcludeParameterFilter where
  name : String
  inLoc : String

/-! ## Operation selection (`filterOperations`, `shouldIncludeOperation`) -/

/-- Model of `strings.EqualFold` (case-insensitive string equality). -/
def eqFold (a b : String) : Bool :=
  a.toLower == b.toLower

/-- `matchGlob` from `helpers.go`; `gl` models the compiled
`gobwas/glob` matcher together with its invalid-pattern fallback. -/
def matchGlob (gl : String → String → Bool) (pattern path : String) : Bool :=
  if pattern == path then true else gl pattern path

/-- `matchPathFilter` from `helpers.go`. -/
def matchPathFilter (gl : String → String → Bool) (path method : String)
    (filter : PathFilter) : Bool :=
  if filter.method != "" && !(eqFold method filter.method) then false
  else matchGlob gl filter.path path

/-- `shouldIncludeOperation` from `merger.go`: the four checks applied in
source order with their non-empty guards. -/
def shouldIncludeOperation (gl : String → String → Bool) (path method : String)
    (op : Operation) (sel : OperationSelectionConfig) : Bool :=
  (if sel.includeTags.isEmpty then true
   else op.tags.any (fun t => sel.includeTags.any (fun u => t == u))) &&
  (if sel.excludeTags.isEmpty then true
   else !(op.tags.any (fun t => sel.excludeTags.any (fun u => t == u)))) &&
  (if sel.includePaths.isEmpty then true
   else sel.includePaths.any (fun f => matchPathFilter gl path method f)) &&
  (if sel.excludePaths.isEmpty then true
   else !(sel.excludePaths.any (fun f => matchPathFilter gl path method f)))

/-- One method slot after the remove-if-not-included loop body of
`filterOperations`. -/
def filterOpSlot (gl : String → String → Bool) (sel : OperationSelectionConfig)
    (path : String) (m : Method) (o : Option Operation) : Option Operation :=
  match o with
  | none => none
  | some op => if shouldIncludeOperation gl path (methodName m) op sel then some op else none

/-- The per-path-item effect of the operation loop of `filterOperations`:
every operation failing the selection is removed via `removeOperation`. -/
def filterPathItem (gl : String → String → Bool) (sel : OperationSelectionConfig)
    (path : String) : PathItem → PathItem
  | .mk g p pu d pa h o t ps =>
    .mk (filterOpSlot gl sel path .get g) (filterOpSlot gl sel path .post p)
      (filterOpSlot gl sel path .put pu) (filterOpSlot gl sel path .delete d)
      (filterOpSlot gl sel path .patch pa) (filterOpSlot gl sel path .head h)
      (filterOpSlot gl sel path .options o) (filterOpSlot gl sel path .trace t) ps

/-- `isPathItemEmpty` from `helpers.go`. -/
def isPathItemEmpty : PathItem → Bool
  | .mk g p pu d pa h o t _ =>
    g.isNone && p.isNone && pu.isNone && d.isNone && pa.isNone &&
      h.isNone && o.isNone && t.isNone

/-- `filterOperations` from `merger.go`: with no selection configured the
document is returned unchanged; otherwise failing operations are removed
from every path item and paths left with an empty item are deleted. -/
def filterOperations (gl : String → String → Bool)
    (sel : Option OperationSelectionConfig) (d : Doc) : Doc :=
  match sel with
  | none => d
  | some sel =>
    { d with paths :=
        ((d.paths.map (fun p => (p.1, filterPathItem gl sel p.1 p.2))).filter
          (fun p => !(isPathItemEmpty p.2))) }

/-! ## Path modification (`modifyPaths`) -/

/-- Model of `strings.HasPrefix s pre` at the character level. -/
def hasPfx (s pre : String) : Bool :=
  pre.data.isPrefixOf s.data

/-- The per-key rewrite of `modifyPaths`: conditional `strings.TrimPrefix`
for `stripStart`, then `prepend`, then a leading slash if missing. -/
def rewritePath (mod : PathModificationConfig) (path : String) : String :=
  let p1 := if mod.stripStart != "" && hasPfx path mod.stripStart
    then path.drop mod.stripStart.length else path
  let p2 := if mod.prepend != "" then mod.prepend ++ p1 else p1
  if hasPfx p2 "/" then p2 else "/" ++ p2

/-- `modifyPaths` from `merger.go`: every entry is re-inserted under its
rewritten key into a fresh path map (`newPaths.Set`), so keys that rewrite
equally collide silently. -/
def modifyPaths (mod : Option PathModificationConfig) (d : Doc) : Doc :=
  match mod with
  | none => d
  | some mod =>
    { d with paths := d.paths.foldl (fun acc p => setAssoc acc (rewritePath mod p.1) p.2) [] }

/-! ## Parameter modification (`modifyParameters`) -/

/-- `ToOpenAPI3Parameter` from `internal/config`: build the parameter,
defaulting the schema to an unconstrained string type when none is
configured. -/
def toOpenAPI3Parameter (cfg : ParameterConfig) : Parameter :=
  { name := cfg.name, inLoc := cfg.inLoc, descr := cfg.descr,
    required := cfg.required, deprecated := cfg.deprecated,
    allowEmptyValue := cfg.allowEmptyValue,
    schema := match cfg.schema with
      | some s => some ⟨"", some (.mk s.typ s.format s.descr none [] none [] [] [] none)⟩
      | none => some ⟨"", some (.mk "string" "" "" none [] none [] [] [] none)⟩ }

/-- The duplicate test of the injection loop: an existing parameter with
non-nil value and the same name and location. -/
def paramExists (ps : List ParameterRef) (name inLoc : String) : Bool :=
  ps.any (fun pr => match pr.value with
    | some p => p.name == name && p.inLoc == inLoc
    | none => false)

/-- The injection loop of `modifyParameters`: each configured extra
parameter is appended unless a parameter with the same (name, location)
already exists on the (growing) list. -/
def injectExtras (cfgs : List ParameterConfig) (ps : List ParameterRef) : List ParameterRef :=
  cfgs.foldl (fun acc cfg =>
    let param := toOpenAPI3Parameter cfg
    if paramExists acc param.name param.inLoc then acc
    else acc ++ [{ ref := "", value := some param }]) ps

/-- The exclusion test of the removal loop of `modifyParameters`. -/
def excludedBy (filters : List ExcludeParameterFilter) (p : Parameter) : Bool :=
  filters.any (fun f => f.name == p.name && (f.inLoc == "" || f.inLoc == p.inLoc))

/-- The removal loop of `modifyParameters`: parameters without a value are
kept; valued parameters matching a filter are dropped. -/
def removeExcludedParams (filters : List ExcludeParameterFilter)
    (ps : List ParameterRef) : List ParameterRef :=
  if filters.isEmpty then ps
  else ps.filter (fun pr => match pr.value with
    | none => true
    | some p => !(excludedBy filters p))

/-- The per-operation body of `modifyParameters`: injection first, then
removal against the post-injection list. -/
def modifyParamsOp (cfgs : List ParameterConfig) (filters : List ExcludeParameterFilter) :
    Operation → Operation
  | .mk tags ps rb resps cbs =>
    .mk tags (removeExcludedParams filters (injectExtras cfgs ps)) rb resps cbs

/-- Application of a function to every populated operation of a path item,
as the `getOperationsMap` loops do. -/
def mapPathItemOps (f : Operation → Operation) : PathItem → PathItem
  | .mk g p pu d pa h o t ps =>
    .mk (g.map f) (p.map f) (pu.map f) (d.map f) (pa.map f) (h.map f) (o.map f) (t.map f) ps

/-- `modifyParameters` from `merger.go`. -/
def modifyParameters (cfgs : List ParameterConfig) (filters : List ExcludeParameterFilter)
    (d : Doc) : Doc :=
  { d with paths := d.paths.map (fun p => (p.1, mapPathItemOps (modifyParamsOp cfgs filters) p.2)) }

/-! ## Reference rewriting (`refs.go`) -/

/-- `updateParameterRefRefs`. -/
def updateParameterRefRefs (ren : List (String × String)) (pr : ParameterRef) : ParameterRef :=
  { ref := applyRen ren pr.ref,
    value := pr.value.map (fun p => { p with schema := p.schema.map (updateSchemaRefRefs ren) }) }

/-- `updateRequestBodyRefRefs`. -/
def updateRequestBodyRefRefs (ren : List (String × String)) (br : RequestBodyRef) : RequestBodyRef :=
  { ref := applyRen ren br.ref,
    value := br.value.map (fun b =>
      { b with content := b.content.map (fun mt => (mt.1, ⟨mt.2.schema.map (updateSchemaRefRefs ren)⟩)) }) }

/-- `updateHeaderRefRefs`. -/
def updateHeaderRefRefs (ren : List (String × String)) (hr : HeaderRef) : HeaderRef :=
  { ref := applyRen ren hr.ref,
    value := hr.value.map (fun h => { h with schema := h.schema.map (updateSchemaRefRefs ren) }) }

/-- `updateResponseRefRefs`. -/
def updateResponseRefRefs (ren : List (String × String)) (rr : ResponseRef) : ResponseRef :=
  { ref := applyRen ren rr.ref,
    value := rr.value.map (fun r =>
      { content := r.content.map (fun mt => (mt.1, ⟨mt.2.schema.map (updateSchemaRefRefs ren)⟩)),
        headers := r.headers.map (fun h => (h.1, updateHeaderRefRefs ren h.2)) }) }

/-! The path-item level of the traversal is mutually recursive through
callbacks (`updateCallbackRefRefs` recurses into `updatePathItemRefs`). -/

mutual

def updatePathItemRefs (ren : List (String × String)) : PathItem → PathItem
  | .mk g p pu d pa h o t ps =>
    .mk (updOpOpt ren g) (updOpOpt ren p) (updOpOpt ren pu) (updOpOpt ren d)
      (updOpOpt ren pa) (updOpOpt ren h) (updOpOpt ren o) (updOpOpt ren t)
      (ps.map (updateParameterRefRefs ren))

def updateOperationRefs (ren : List (String × String)) : Operation → Operation
  | .mk tags ps rb resps cbs =>
    .mk tags (ps.map (updateParameterRefRefs ren)) (rb.map (updateRequestBodyRefRefs ren))
      (resps.map (fun r => (r.1, updateResponseRefRefs ren r.2))) (updCbPairs ren cbs)

def updateCallbackRefRefs (ren : List (String × String)) : CallbackRef → CallbackRef
  | .mk r none => .mk (applyRen ren r) none
  | .mk r (some items) => .mk (applyRen ren r) (some (updCbItems ren items))

def updOpOpt (ren : List (String × String)) : Option Operation → Option Operation
  | none => none
  | some op => some (updateOperationRefs ren op)

def updCbPairs (ren : List (String × String)) :
    List (String × CallbackRef) → List (String × CallbackRef)
  | [] => []
  | (k, cb) :: rest => (k, updateCallbackRefRefs ren cb) :: updCbPairs ren rest

def updCbItems (ren : List (String × String)) :
    List (String × PathItem) → List (String × PathItem)
  | [] => []
  | (k, pi2) :: rest => (k, updatePathItemRefs ren pi2) :: updCbItems ren rest

end

/-- `updateComponentsRefs`: schemas, parameters, responses, request bodies,
headers and callbacks are traversed; security schemes, examples and links
are not. -/
def updateComponentsRefs (ren : List (String × String)) (c : Components) : Components :=
  { c with
    schemas := c.schemas.map (fun p => (p.1, updateSchemaRefRefs ren p.2)),
    parameters := c.parameters.map (fun p => (p.1, updateParameterRefRefs ren p.2)),
    responses := c.responses.map (fun p => (p.1, updateResponseRefRefs ren p.2)),
    requestBodies := c.requestBodies.map (fun p => (p.1, updateRequestBodyRefRefs ren p.2)),
    headers := c.headers.map (fun p => (p.1, updateHeaderRefRefs ren p.2)),
    callbacks := c.callbacks.map (fun p => (p.1, updateCallbackRefRefs ren p.2)) }

/-- `updateRefs` from `refs.go`. -/
def updateRefs (ren : List (String × String)) (d : Doc) : Doc :=
  if ren.isEmpty then d
  else
    { d with
      paths := d.paths.map (fun p => (p.1, updatePathItemRefs ren p.2)),
      components := d.components.map (updateComponentsRefs ren) }

/-! ## Dispute prefix (`applyDisputePrefix` in `merger.go`) -/

/-- The rename-map entries contributed by the schema loop: both the
OpenAPI 3 form and the legacy `#/definitions/` form point at the
prefixed schema name. -/
def schemaRenames (pfx : String) (schemas : List (String × SchemaRef)) : List (String × String) :=
  schemas.flatMap (fun p =>
    [("#/components/schemas/" ++ p.1, "#/components/schemas/" ++ (pfx ++ p.1)),
     ("#/definitions/" ++ p.1, "#/components/schemas/" ++ (pfx ++ p.1))])

/-- Rename-map entries for one single-form component kind. -/
def kindRenames {α : Type} (base pfx : String) (l : List (String × α)) : List (String × String) :=
  l.map (fun p => (base ++ p.1, base ++ (pfx ++ p.1)))

/-- The full rename map built by `applyDisputePrefix` over the five
renamed component kinds. -/
def disputeRenames (pfx : String) (c : Components) : List (String × String) :=
  schemaRenames pfx c.schemas ++
    kindRenames "#/components/responses/" pfx c.responses ++
    kindRenames "#/components/parameters/" pfx c.parameters ++
    kindRenames "#/components/securitySchemes/" pfx c.securitySchemes ++
    kindRenames "#/components/requestBodies/" pfx c.requestBodies

/-- Key renaming of one component map (`newX[prefix+name] = x`). -/
def renameKeys {α : Type} (pfx : String) (l : List (String × α)) : List (String × α) :=
  l.map (fun p => (pfx ++ p.1, p.2))

/-- `applyDisputePrefix` from `merger.go` (called by `Merge` only when the
configured dispute prefix is non-empty): rename the five component kinds,
then rewrite every reference via `updateRefs`. -/
def applyDisputePfx (pfx : String) (d : Doc) : Doc :=
  match d.components with
  | none => d
  | some c =>
    let ren := disputeRenames pfx c
    let c2 : Components :=
      { c with
        schemas := renameKeys pfx c.schemas,
        responses := renameKeys pfx c.responses,
        parameters := renameKeys pfx c.parameters,
        securitySchemes := renameKeys pfx c.securitySchemes,
        requestBodies := renameKeys pfx c.requestBodies }
    updateRefs ren { d with components := some c2 }

/-! ## Merging into the master spec (`mergeSpec`, `mergeComponents`,
`mergePathItem`) -/

/-- `mergePathItem` from `helpers.go`: per method, the destination
operation is kept and the source operation fills an empty slot
(first-writer-wins); source path-level parameters are appended unless a
parameter with the same (name, location) already sits in the growing
destination list. -/
def mergeParamStep (acc : List ParameterRef) (pr : ParameterRef) : List ParameterRef :=
  if acc.any (fun ex => match ex.value, pr.value with
    | some e, some q => e.name == q.name && e.inLoc == q.inLoc
    | _, _ => false)
  then acc else acc ++ [pr]

def mergePathItem (dest src : PathItem) : PathItem :=
  match dest, src with
  | .mk g p pu d pa h o t dps, .mk g2 p2 pu2 d2 pa2 h2 o2 t2 sps =>
    .mk (g.or g2) (p.or p2) (pu.or pu2) (d.or d2) (pa.or pa2) (h.or h2) (o.or o2) (t.or t2)
      (sps.foldl mergeParamStep dps)

/-- One iteration of the path loop of `mergeSpec`: an existing path is
merged in place via `mergePathItem`, a new path is adopted whole. -/
def mergePathStep (acc : List (String × PathItem)) (p : String × PathItem) :
    List (String × PathItem) :=
  match lookupA acc p.1 with
  | some existing => setAssoc acc p.1 (mergePathItem existing p.2)
  | none => acc ++ [p]

/-- The path loop of `mergeSpec`. -/
def mergePaths (master : List (String × PathItem)) (docPaths : List (String × PathItem)) :
    List (String × PathItem) :=
  docPaths.foldl mergePathStep master

/-- The collision error text of `mergeComponents` (quotes around the name
omitted). -/
def collisionMsg (name : String) : String :=
  "schema collision for " ++ name ++ " without dispute prefix"

/-- The schema loop of `mergeComponents`: an unknown name is adopted, a
known name is skipped when its definition is equal or the input was
disputed, and otherwise aborts the merge. -/
def mergeSchemas (master : List (String × SchemaRef)) (doc : List (String × SchemaRef))
    (disputed : Bool) : Except String (List (String × SchemaRef)) :=
  doc.foldlM (fun acc p =>
    match lookupA acc p.1 with
    | some existing =>
      if !(schemasEqual (some existing) (some p.2)) && !disputed
      then .error (collisionMsg p.1)
      else .ok acc
    | none => .ok (acc ++ [p])) master

/-- The first-writer-wins loop used by `mergeComponents` for every
non-schema component kind. -/
def mergeFWW {α : Type} (master : List (String × α)) (doc : List (String × α)) :
    List (String × α) :=
  doc.foldl (fun acc p => if hasKey acc p.1 then acc else acc ++ [p]) master

/-- `mergeComponents` from `merger.go`. -/
def mergeComponents (master : Components) (c : Components) (disputed : Bool) :
    Except String Components := do
  let schemas ← mergeSchemas master.schemas c.schemas disputed
  pure { schemas := schemas,
         responses := mergeFWW master.responses c.responses,
         parameters := mergeFWW master.parameters c.parameters,
         securitySchemes := mergeFWW master.securitySchemes c.securitySchemes,
         requestBodies := mergeFWW master.requestBodies c.requestBodies,
         examples := mergeFWW master.examples c.examples,
         headers := mergeFWW master.headers c.headers,
         links := mergeFWW master.links c.links,
         callbacks := mergeFWW master.callbacks c.callbacks }

/-- The master state accumulated by `Merge` (paths, components and tags of
the composite; the components bag is initialized non-nil). -/
structure MasterState where
  paths : List (String × PathItem)
  comps : Components
  tags : List Tag

/-- `mergeSpec` from `merger.go`: merge paths, then components (the only
fallible part), then tags by unseen name. -/
def mergeSpec (m : MasterState) (d : Doc) (disputed : Bool) : Except String MasterState := do
  let paths := mergePaths m.paths d.paths
  let comps ← match d.components with
    | none => pure m.comps
    | some c => mergeComponents m.comps c disputed
  let tags := d.tags.foldl (fun acc t =>
    if acc.any (fun u => u.name == t.name) then acc else acc ++ [t]) m.tags
  pure ⟨paths, comps, tags⟩

/-! ## Output path ordering (`sortPaths`, `createSortedSpec` in
`merger.go`) -/

/-- One pass of the inner loop of the exchange sort in `sortPaths`: the
running minimum is carried in the first component and displaced elements
stay at their positions. -/
def selectMin (x : String) : List String → String × List String
  | [] => (x, [])
  | y :: ys =>
    if strLt y x then
      ((selectMin y ys).1, x :: (selectMin y ys).2)
    else
      ((selectMin x ys).1, y :: (selectMin x ys).2)

theorem selectMin_len (x : String) (l : List String) :
    (selectMin x l).2.length = l.length := by
  induction l generalizing x with
  | nil => simp [selectMin]
  | cons y ys ih =>
    simp only [selectMin]
    split <;> simp [ih]

/-- The double loop of `sortPaths` over list indices, run on a list with
the outer loop counter as structural fuel (one outer iteration fixes one
position). -/
def sortStringsAux : Nat → List String → List String
  | _, [] => []
  | 0, _ :: _ => []
  | f + 1, x :: xs => (selectMin x xs).1 :: sortStringsAux f (selectMin x xs).2

/-- Ascending sort of the non-priority path keys, as the exchange sort of
`sortPaths` produces it. -/
def sortStrings (l : List String) : List String :=
  sortStringsAux l.length l

/-- The ordered key list `sortedPaths` built by `sortPaths`: priority
paths in configured order (every hit appended), then the remaining paths
sorted ascending. -/
def sortPathsKeys (pathsOrder : List String) (allPaths : List String) : List String :=
  (pathsOrder.foldl (fun acc pp => acc ++ allPaths.filter (fun p => p == pp)) []) ++
    sortStrings (allPaths.filter (fun p => !(pathsOrder.any (fun pp => pp == p))))

/-- `sortPaths` from `merger.go`: the ordered key list is replayed into a
fresh Go map (`orderedPaths[path] = paths[path]`), modelled with
replace-or-append writes. -/
def sortPathsMap {α : Type} (pathsOrder : List String) (paths : List (String × α)) :
    List (String × α) :=
  (sortPathsKeys pathsOrder (paths.map Prod.fst)).foldl (fun acc p =>
    match lookupA paths p with
    | some v => setAssoc acc p v
    | none => acc) []

/-- Key order in which `encoding/json` serializes a Go
`map[string]interface{}` (as produced by `createSortedSpec` and handed to
`json.MarshalIndent`): object keys of a map are emitted in sorted order,
irrespective of insertion order. -/
def marshalKeyOrder {α : Type} (m : List (String × α)) : List String :=
  sortStrings (m.map Prod.fst)

/-! ## Heap model for the schema reference-rewriting traversal

For the termination claim the in-memory schema object graph is modelled
as a heap of numbered nodes: a `SchemaNode` carries the child pointers
`updateSchemaRefRefs` descends through, and a nil pointer is an address
not in the heap.  `visitSchemaGraph` performs the traversal of
`updateSchemaRefRefs` with an explicit call-depth budget; the source has
no visited set or depth guard, so exhausting every budget (`none` for all
fuel) is divergence of the Go recursion. -/

structure SchemaNode where
  ref : String
  items : Option Nat
  properties : List (String × Nat)
  addlProps : Option Nat
  allOf : List Nat
  oneOf : List Nat
  anyOf : List Nat
  nots : Option Nat

def SchemaHeap := Nat → Option SchemaNode

/-- The child pointers `updateSchemaRefRefs` recurses into, in source
order. -/
def nodeChildren (n : SchemaNode) : List Nat :=
  n.items.toList ++ n.properties.map Prod.snd ++ n.addlProps.toList ++
    n.allOf ++ n.oneOf ++ n.anyOf ++ n.nots.toList

/-- The recursion of `updateSchemaRefRefs` on the heap: a nil pointer
returns, otherwise every child is visited in turn; `none` means the
call-depth budget was exhausted. -/
def visitSchemaGraph (h : SchemaHeap) : Nat → Nat → Option Unit
  | 0, _ => none
  | fuel + 1, a =>
    match h a with
    | none => some ()
    | some n =>
      (nodeChildren n).foldl (fun acc c =>
        match acc with
        | none => none
        | some _ => visitSchemaGraph h fuel c) (some ())

/-- A heap whose node at address 0 reaches itself through its `Not`
field: a cyclic schema value graph. -/
def cyclicSchemaHeap : SchemaHeap :=
  fun _ => some ⟨"", none, [], none, [], [], [], some 0⟩

/-! ## Collected reference strings

`collectDocRefs` lists, in traversal order, exactly the `$ref` strings
the `update*Refs` family examines; it is the verification-side notion of
"reference string anywhere in the document". -/

mutual

def collectSR : SchemaRef → List String
  | .mk r none => [r]
  | .mk r (some s) => r :: collectSchemaVal s

def collectSchemaVal : Schema → List String
  | .mk _ _ _ it pr ap ao oo an no =>
    collectSROpt it ++ collectProps pr ++ collectSROpt ap ++
      collectSRList ao ++ collectSRList oo ++ collectSRList an ++ collectSROpt no

def collectSROpt : Option SchemaRef → List String
  | none => []
  | some s => collectSR s

def collectProps : List (String × SchemaRef) → List String
  | [] => []
  | (_, s) :: rest => collectSR s ++ collectProps rest

def collectSRList : List SchemaRef → List String
  | [] => []
  | s :: rest => collectSR s ++ collectSRList rest

end

def collectSchemaOpt : Option SchemaRef → List String
  | none => []
  | some s => collectSR s

def collectParamRef (pr : ParameterRef) : List String :=
  pr.ref :: (match pr.value with
    | none => []
    | some p => collectSchemaOpt p.schema)

def collectRequestBodyRef (br : RequestBodyRef) : List String :=
  br.ref :: (match br.value with
    | none => []
    | some b => b.content.flatMap (fun mt => collectSchemaOpt mt.2.schema))

def collectHeaderRef (hr : HeaderRef) : List String :=
  hr.ref :: (match hr.value with
    | none => []
    | some h => collectSchemaOpt h.schema)

def collectResponseRef (rr : ResponseRef) : List String :=
  rr.ref :: (match rr.value with
    | none => []
    | some r => r.content.flatMap (fun mt => collectSchemaOpt mt.2.schema) ++
        r.headers.flatMap (fun h => collectHeaderRef h.2))

mutual

def collectPathItem : PathItem → List String
  | .mk g p pu d pa h o t ps =>
    collectOpOpt g ++ collectOpOpt p ++ collectOpOpt pu ++ collectOpOpt d ++
      collectOpOpt pa ++ collectOpOpt h ++ collectOpOpt o ++ collectOpOpt t ++
      ps.flatMap collectParamRef

def collectOperation : Operation → List String
  | .mk _ ps rb resps cbs =>
    ps.flatMap collectParamRef ++
      (match rb with | none => [] | some b => collectRequestBodyRef b) ++
      resps.flatMap (fun r => collectResponseRef r.2) ++ collectCbPairs cbs

def collectCallbackRef : CallbackRef → List String
  | .mk r none => [r]
  | .mk r (some items) => r :: collectCbItems items

def collectOpOpt : Option Operation → List String
  | none => []
  | some op => collectOperation op

def collectCbPairs : List (String × CallbackRef) → List String
  | [] => []
  | (_, cb) :: rest => collectCallbackRef cb ++ collectCbPairs rest

def collectCbItems : List (String × PathItem) → List String
  | [] => []
  | (_, pi2) :: rest => collectPathItem pi2 ++ collectCbItems rest

end

/-- The refs examined inside a components bag, mirroring
`updateComponentsRefs`. -/
def collectComponents (c : Components) : List String :=
  c.schemas.flatMap (fun p => collectSR p.2) ++
    c.parameters.flatMap (fun p => collectParamRef p.2) ++
    c.responses.flatMap (fun p => collectResponseRef p.2) ++
    c.requestBodies.flatMap (fun p => collectRequestBodyRef p.2) ++
    c.headers.flatMap (fun p => collectHeaderRef p.2) ++
    c.callbacks.flatMap (fun p => collectCallbackRef p.2)

/-- Every ref position of a document that `updateRefs` examines. -/
def collectDocRefs (d : Doc) : List String :=
  d.paths.flatMap (fun p => collectPathItem p.2) ++
    (match d.components with
     | none => []
     | some c => collectComponents c)

/-! ## Basic string facts used by the path-rewrite claims -/

theorem hasPfx_empty (p : String) : hasPfx p "" = true := by
  simp [hasPfx]

theorem string_drop_zero (p : String) : p.drop 0 = p := by
  rw [String.drop_eq]
  cases p
  simp

/-! ## C4: path-key rewriting -/

/-- The rewrite formula as the specification states it: strip `stripStart`
when it is an exact prefix, prepend `prepend` verbatim, then ensure a
leading slash (stated without the source's emptiness guards). -/
def claimRewritePath (stripStart prepend p : String) : String :=
  let s := if hasPfx p stripStart then p.drop stripStart.length else p
  let s2 := prepend ++ s
  if hasPfx s2 "/" then s2 else "/" ++ s2

theorem rewritePath_eq_claim (mod : PathModificationConfig) (p : String) :
    rewritePath mod p = claimRewritePath mod.stripStart mod.prepend p := by
  by_cases hs : mod.stripStart = "" <;> by_cases hp : mod.prepend = "" <;>
    simp [rewritePath, claimRewritePath, hs, hp, hasPfx_empty, string_drop_zero,
      String.empty_append]

/-- C4: for every path key and every path-modification configuration the
rewritten key follows the strip-then-prepend-then-slash formula of the
specification, `modifyPaths` applies it to every key of the document,
and stripStart `/health` applied to path `/health` yields exactly `/`. -/
theorem c4_path_rewrite (mod : PathModificationConfig) (d : Doc) (p : String) :
    rewritePath mod p = claimRewritePath mod.stripStart mod.prepend p ∧
    (modifyPaths (some mod) d).paths =
      d.paths.foldl
        (fun acc pr => setAssoc acc (claimRewritePath mod.stripStart mod.prepend pr.1) pr.2) [] ∧
    rewritePath ⟨"/health", ""⟩ "/health" = "/" := by
  refine ⟨rewritePath_eq_claim mod p, ?_, by decide⟩
  simp only [modifyPaths]
  congr 1
  funext acc pr
  rw [rewritePath_eq_claim]

/-! ## C10: colliding rewritten path keys -/

def opC10 : Operation := .mk [] [] none [] []

def itemGetC10 : PathItem := .mk (some opC10) none none none none none none none []

def itemEmptyC10 : PathItem := .mk none none none none none none none none []

def docC10 : Doc := ⟨[("/v1/users", itemGetC10), ("/users", itemEmptyC10)], none, []⟩

/-- C10: with stripStart `/v1`, the keys `/v1/users` and `/users` both
rewrite to `/users`; the path item processed last silently overwrites the
first, no error is raised, and one path item is lost. -/
theorem c10_rewrite_collision :
    rewritePath ⟨"/v1", ""⟩ "/v1/users" = rewritePath ⟨"/v1", ""⟩ "/users" ∧
    itemGetC10 ≠ itemEmptyC10 ∧
    docC10.paths.length = 2 ∧
    (modifyPaths (some ⟨"/v1", ""⟩) docC10).paths = [("/users", itemEmptyC10)] := by
  refine ⟨by decide, ?_, rfl, ?_⟩
  · intro h
    simp [itemGetC10, itemEmptyC10] at h
  · rfl

/-! ## C9: termination behaviour of the schema reference traversal -/

theorem visitList_all_some (h : SchemaHeap) (fuel : Nat) (l : List Nat)
    (hall : ∀ c ∈ l, visitSchemaGraph h fuel c = some ()) :
    l.foldl (fun acc c =>
      match acc with
      | none => none
      | some _ => visitSchemaGraph h fuel c) (some ()) = some () := by
  induction l with
  | nil => rfl
  | cons c cs ih =>
    have hc := hall c (by simp)
    simp only [List.foldl_cons, hc]
    exact ih (fun x hx => hall x (by simp [hx]))

theorem visit_terminates (h : SchemaHeap) (meas : Nat → Nat)
    (hm : ∀ a n, h a = some n → ∀ c ∈ nodeChildren n, meas c < meas a) :
    ∀ fuel a, meas a < fuel → visitSchemaGraph h fuel a = some () := by
  intro fuel
  induction fuel with
  | zero => intro a ha; omega
  | succ f ih =>
    intro a _
    show visitSchemaGraph h (f + 1) a = some ()
    simp only [visitSchemaGraph]
    cases hha : h a with
    | none => rfl
    | some n =>
      exact visitList_all_some h f (nodeChildren n)
        (fun c hc => ih c (Nat.lt_of_lt_of_le (hm a n hha c hc) (by omega)))

theorem visit_cyclic : ∀ (fuel a : Nat), visitSchemaGraph cyclicSchemaHeap fuel a = none := by
  intro fuel
  induction fuel with
  | zero => intro a; rfl
  | succ f ih =>
    intro a
    show visitSchemaGraph cyclicSchemaHeap (f + 1) a = none
    simp only [visitSchemaGraph, cyclicSchemaHeap]
    simp [nodeChildren, ih 0]

/-- C9: the reference-rewriting traversal of `updateSchemaRefRefs`
terminates on every schema object graph admitting a measure decreasing
into `items`, `properties`, `additionalProperties`, `allOf`, `oneOf`,
`anyOf` and `not` (i.e. an acyclic value graph), while on the cyclic
heap, where the node at address 0 reaches itself through `not`, no
call-depth budget suffices: the recursion never returns. -/
theorem c9_traversal_termination (h : SchemaHeap) (meas : Nat → Nat)
    (hm : ∀ a n, h a = some n → ∀ c ∈ nodeChildren n, meas c < meas a) (a : Nat) :
    visitSchemaGraph h (meas a + 1) a = some () ∧
    (∀ fuel, visitSchemaGraph cyclicSchemaHeap fuel 0 = none) := by
  exact ⟨visit_terminates h meas hm (meas a + 1) a (by omega), fun fuel => visit_cyclic fuel 0⟩

/-- An acyclic two-node heap: the node at address 0 points at address 1
through `items`; address 1 is unallocated. -/
def acyclicHeapC9 : SchemaHeap :=
  fun a => if a = 0 then some ⟨"", some 1, [], none, [], [], [], none⟩ else none

/-- A measure for `acyclicHeapC9`. -/
def measC9 : Nat → Nat :=
  fun a => if a = 0 then 1 else 0

theorem c9_traversal_termination_witness :
    visitSchemaGraph acyclicHeapC9 (measC9 0 + 1) 0 = some () ∧
    (∀ fuel, visitSchemaGraph cyclicSchemaHeap fuel 0 = none) := by
  refine c9_traversal_termination acyclicHeapC9 measC9 ?_ 0
  intro a n ha c hc
  by_cases h0 : a = 0
  · subst h0
    simp only [acyclicHeapC9, if_pos rfl, if_true, Option.some.injEq] at ha
    rw [← ha] at hc
    simp only [nodeChildren] at hc
    simp at hc
    subst hc
    simp [measC9]
  · simp [acyclicHeapC9, h0] at ha

/-! ## C7: path order in the serialized output -/

/-- C7: `sortPaths` does compute the intended key sequence (priority
paths first, then the rest ascending) — first conjunct — but it replays
that sequence into a fresh Go `map[string]interface{}`, and
`json.MarshalIndent` emits the keys of a Go map in sorted order, so with
priority list `["/z"]` over paths `/a` and `/z` the serialized key order
is the plain alphabetical `["/a", "/z"]`, not the configured-first order
`["/z", "/a"]` the specification requires. -/
theorem c7_serialized_order_bug :
    sortPathsKeys ["/z"] (([("/a", 1), ("/z", 2)] : List (String × Nat)).map Prod.fst) =
      ["/z", "/a"] ∧
    (sortPathsMap ["/z"] ([("/a", 1), ("/z", 2)] : List (String × Nat))).map Prod.fst =
      ["/z", "/a"] ∧
    marshalKeyOrder (sortPathsMap ["/z"] ([("/a", 1), ("/z", 2)] : List (String × Nat))) =
      ["/a", "/z"] ∧
    (["/a", "/z"] : List String) ≠ ["/z", "/a"] := by
  refine ⟨by decide, by decide, rfl, by decide⟩

/-! ## C5: no empty path items after filtering -/

def docC5 : Doc := ⟨[("/e", itemEmptyC10)], none, []⟩

/-- C5 counterexample: with no operation selection configured,
`filterOperations` returns the document unchanged, so a pre-existing
path item with zero populated operations survives in the path mapping —
the claim fails for the configuration `none`. -/
theorem c5_counterexample :
    filterOperations (fun _ _ => false) none docC5 = docC5 ∧
    ("/e", itemEmptyC10) ∈ docC5.paths ∧
    isPathItemEmpty itemEmptyC10 = true := by
  refine ⟨rfl, by simp [docC5], rfl⟩

/-- C5 (amended): whenever an operation selection is configured, after
`filterOperations` the path mapping contains no key whose path item has
zero populated operations. -/
theorem c5_no_empty_path_items (gl : String → String → Bool)
    (sel : OperationSelectionConfig) (d : Doc) (p : String × PathItem)
    (hp : p ∈ (filterOperations gl (some sel) d).paths) :
    isPathItemEmpty p.2 = false := by
  simp only [filterOperations] at hp
  have h := (List.mem_filter.mp hp).2
  simpa using h

def glC5 : String → String → Bool := fun _ _ => false

def selC5 : OperationSelectionConfig := ⟨[], [], [], []⟩

def docC5w : Doc := ⟨[("/x", itemGetC10)], none, []⟩

theorem c5_no_empty_path_items_witness :
    isPathItemEmpty (("/x", filterPathItem glC5 selC5 "/x" itemGetC10) : String × PathItem).2
      = false := by
  have h : (filterOperations glC5 (some selC5) docC5w).paths =
      [("/x", filterPathItem glC5 selC5 "/x" itemGetC10)] := rfl
  exact c5_no_empty_path_items glC5 selC5 docC5w _ (h ▸ List.mem_singleton.mpr rfl)

/-! ## C8: idempotence of the operation filter -/

theorem filterOpSlot_idem (gl : String → String → Bool) (sel : OperationSelectionConfig)
    (path : String) (m : Method) (o : Option Operation) :
    filterOpSlot gl sel path m (filterOpSlot gl sel path m o) = filterOpSlot gl sel path m o := by
  cases o with
  | none => rfl
  | some op =>
    by_cases h : shouldIncludeOperation gl path (methodName m) op sel <;>
      simp [filterOpSlot, h]

theorem filterPathItem_idem (gl : String → String → Bool) (sel : OperationSelectionConfig)
    (path : String) (it : PathItem) :
    filterPathItem gl sel path (filterPathItem gl sel path it) = filterPathItem gl sel path it := by
  cases it with
  | mk g p pu d pa h o t ps =>
    simp [filterPathItem, filterOpSlot_idem]

/-- C8: applying the operation filter twice with the same configuration
(and the same glob matcher) yields the same document as applying it
once. -/
theorem c8_filter_idempotent (gl : String → String → Bool)
    (sel : Option OperationSelectionConfig) (d : Doc) :
    filterOperations gl sel (filterOperations gl sel d) = filterOperations gl sel d := by
  cases sel with
  | none => rfl
  | some sel =>
    simp only [filterOperations]
    have hmap : ∀ x ∈ ((d.paths.map
          (fun p => (p.1, filterPathItem gl sel p.1 p.2))).filter
          (fun p => !(isPathItemEmpty p.2))),
        (fun p => ((p : String × PathItem).1, filterPathItem gl sel p.1 p.2)) x = x := by
      intro x hx
      have hx2 := (List.mem_filter.mp hx).1
      obtain ⟨y, _, hy⟩ := List.mem_map.mp hx2
      subst hy
      simp [filterPathItem_idem]
    have hfil : ∀ x ∈ ((d.paths.map
          (fun p => (p.1, filterPathItem gl sel p.1 p.2))).filter
          (fun p => !(isPathItemEmpty p.2))),
        (!(isPathItemEmpty (x : String × PathItem).2)) = true := by
      intro x hx
      exact (List.mem_filter.mp hx).2
    rw [show (((d.paths.map (fun p => (p.1, filterPathItem gl sel p.1 p.2))).filter
          (fun p => !(isPathItemEmpty p.2))).map
          (fun p => (p.1, filterPathItem gl sel p.1 p.2))) =
        ((d.paths.map (fun p => (p.1, filterPathItem gl sel p.1 p.2))).filter
          (fun p => !(isPathItemEmpty p.2)))
      from (List.map_congr_left hmap).trans (List.map_id _)]
    rw [List.filter_eq_self.mpr hfil]

/-! ## C6: parameter modification -/

/-- Whether a parameter ref carries a value with the given name and
location (the duplicate test of the injection loop). -/
def prMatches (pr : ParameterRef) (n l : String) : Bool :=
  match pr.value with
  | some p => p.name == n && p.inLoc == l
  | none => false

/-- Number of valued parameters with the given (name, location). -/
def countNL (ps : List ParameterRef) (n l : String) : Nat :=
  (ps.filter (fun pr => prMatches pr n l)).length

theorem paramExists_eq_any (ps : List ParameterRef) (n l : String) :
    paramExists ps n l = ps.any (fun pr => prMatches pr n l) := by
  induction ps with
  | nil => rfl
  | cons pr rest ih =>
    simp only [paramExists, List.any_cons] at *
    cases h : pr.value <;> simp [prMatches, h, ← ih, paramExists]

theorem paramExists_iff_countNL (ps : List ParameterRef) (n l : String) :
    paramExists ps n l = true ↔ 0 < countNL ps n l := by
  rw [paramExists_eq_any]
  induction ps with
  | nil => simp [countNL]
  | cons pr rest ih =>
    by_cases h : prMatches pr n l = true <;> simp [countNL, List.filter_cons, h, ih, countNL]

theorem countNL_append (ps qs : List ParameterRef) (n l : String) :
    countNL (ps ++ qs) n l = countNL ps n l + countNL qs n l := by
  simp [countNL, List.filter_append]

theorem paramExists_append (ps qs : List ParameterRef) (n l : String) :
    paramExists (ps ++ qs) n l = (paramExists ps n l || paramExists qs n l) := by
  simp [paramExists_eq_any]

theorem toParam_name (cfg : ParameterConfig) : (toOpenAPI3Parameter cfg).name = cfg.name := by
  cases h : cfg.schema <;> simp [toOpenAPI3Parameter, h]

theorem toParam_inLoc (cfg : ParameterConfig) : (toOpenAPI3Parameter cfg).inLoc = cfg.inLoc := by
  cases h : cfg.schema <;> simp [toOpenAPI3Parameter, h]

theorem injectExtras_prefix (cfgs : List ParameterConfig) (ps : List ParameterRef) :
    ∃ suffix, injectExtras cfgs ps = ps ++ suffix ∧
      ∀ pr ∈ suffix, ∃ cfg ∈ cfgs, pr = ⟨"", some (toOpenAPI3Parameter cfg)⟩ := by
  induction cfgs generalizing ps with
  | nil => exact ⟨[], by simp [injectExtras], by simp⟩
  | cons cfg rest ih =>
    simp only [injectExtras, List.foldl_cons]
    by_cases h : paramExists ps (toOpenAPI3Parameter cfg).name (toOpenAPI3Parameter cfg).inLoc
    · obtain ⟨s, hs, hmem⟩ := ih ps
      refine ⟨s, by simpa [injectExtras, h] using hs, ?_⟩
      intro pr hpr
      obtain ⟨c, hc, he⟩ := hmem pr hpr
      exact ⟨c, by simp [hc], he⟩
    · obtain ⟨s, hs, hmem⟩ := ih (ps ++ [⟨"", some (toOpenAPI3Parameter cfg)⟩])
      refine ⟨⟨"", some (toOpenAPI3Parameter cfg)⟩ :: s, ?_, ?_⟩
      · simpa [injectExtras, h, List.append_assoc] using hs
      · intro pr hpr
        rcases List.mem_cons.mp hpr with he | hpr2
        · exact ⟨cfg, by simp, he⟩
        · obtain ⟨c, hc, he⟩ := hmem pr hpr2
          exact ⟨c, by simp [hc], he⟩

theorem injectExtras_cons (c : ParameterConfig) (rest : List ParameterConfig)
    (ps : List ParameterRef) :
    injectExtras (c :: rest) ps =
      if paramExists ps c.name c.inLoc then injectExtras rest ps
      else injectExtras rest (ps ++ [⟨"", some (toOpenAPI3Parameter c)⟩]) := by
  by_cases h : paramExists ps c.name c.inLoc <;>
    simp only [injectExtras, List.foldl_cons, toParam_name, toParam_inLoc, h,
      if_true, if_false, Bool.false_eq_true]

theorem prMatches_new (c : ParameterConfig) (n l : String) :
    prMatches ⟨"", some (toOpenAPI3Parameter c)⟩ n l = (c.name == n && c.inLoc == l) := by
  simp [prMatches, toParam_name, toParam_inLoc]

theorem injectExtras_countNL (cfgs : List ParameterConfig) (ps : List ParameterRef)
    (n l : String) :
    countNL (injectExtras cfgs ps) n l =
      if 0 < countNL ps n l then countNL ps n l
      else if cfgs.any (fun c => c.name == n && c.inLoc == l) then 1 else 0 := by
  induction cfgs generalizing ps with
  | nil =>
    simp only [injectExtras, List.foldl_nil, List.any_nil, Bool.false_eq_true, if_false]
    split
    · rfl
    · omega
  | cons c rest ih =>
    rw [injectExtras_cons]
    by_cases hpe : paramExists ps c.name c.inLoc = true
    · have hcnt := (paramExists_iff_countNL ps c.name c.inLoc).mp hpe
      rw [if_pos hpe, ih]
      by_cases hm : (c.name == n && c.inLoc == l) = true
      · obtain ⟨hn, hl⟩ : c.name = n ∧ c.inLoc = l := by simpa using hm
        subst hn; subst hl
        simp [hcnt]
      · simp [List.any_cons, hm]
    · have hpe2 : paramExists ps c.name c.inLoc = false := by
        cases h : paramExists ps c.name c.inLoc
        · rfl
        · exact absurd h hpe
      have hcnt0 : countNL ps c.name c.inLoc = 0 := by
        by_cases h0 : 0 < countNL ps c.name c.inLoc
        · exact absurd ((paramExists_iff_countNL ps c.name c.inLoc).mpr h0) hpe
        · omega
      rw [if_neg hpe, ih, countNL_append]
      by_cases hm : (c.name == n && c.inLoc == l) = true
      · obtain ⟨hn, hl⟩ : c.name = n ∧ c.inLoc = l := by simpa using hm
        subst hn; subst hl
        have h1 : countNL [(⟨"", some (toOpenAPI3Parameter c)⟩ : ParameterRef)] c.name c.inLoc = 1 := by
          simp [countNL, List.filter_cons, prMatches_new]
        simp [hcnt0, h1, List.any_cons]
      · have h0 : countNL [(⟨"", some (toOpenAPI3Parameter c)⟩ : ParameterRef)] n l = 0 := by
          simp only [countNL]
          rw [List.filter_cons]
          simp [prMatches_new, hm]
        simp [h0, List.any_cons, hm]

theorem injectExtras_mem (cfgs : List ParameterConfig) :
    ∀ ps : List ParameterRef, (cfgs.map (fun c => (c.name, c.inLoc))).Nodup →
      ∀ cfg ∈ cfgs, paramExists ps cfg.name cfg.inLoc = false →
        (⟨"", some (toOpenAPI3Parameter cfg)⟩ : ParameterRef) ∈ injectExtras cfgs ps := by
  induction cfgs with
  | nil => intro ps _ cfg hc; simp at hc
  | cons c2 rest ih =>
    intro ps hnd cfg hcfg hex
    rw [List.map_cons] at hnd
    have hnd2 := List.nodup_cons.mp hnd
    rw [injectExtras_cons]
    rcases List.mem_cons.mp hcfg with he | hr
    · subst he
      rw [if_neg (by simp [hex])]
      obtain ⟨s, hs, _⟩ := injectExtras_prefix rest (ps ++ [⟨"", some (toOpenAPI3Parameter cfg)⟩])
      rw [hs]
      simp
    · by_cases hpe : paramExists ps c2.name c2.inLoc = true
      · rw [if_pos hpe]
        exact ih ps hnd2.2 cfg hr hex
      · rw [if_neg hpe]
        refine ih (ps ++ [{ ref := "", value := some (toOpenAPI3Parameter c2) }])
          hnd2.2 cfg hr ?_
        rw [paramExists_append, hex]
        simp only [Bool.false_or]
        have hne : ¬(c2.name = cfg.name ∧ c2.inLoc = cfg.inLoc) := by
          intro hand
          exact hnd2.1 (by
            rw [List.mem_map]
            exact ⟨cfg, hr, by simp [hand.1, hand.2]⟩)
        simp only [paramExists, List.any_cons, List.any_nil, Bool.or_false]
        simp only [toParam_name, toParam_inLoc]
        simp only [Bool.and_eq_false_iff]
        by_cases h1 : c2.name = cfg.name
        · right
          simp only [beq_eq_false_iff_ne, ne_eq]
          intro h2
          exact hne ⟨h1, h2⟩
        · left
          simp only [beq_eq_false_iff_ne, ne_eq]
          exact h1

theorem removeExcluded_keeps_clean (filters : List ExcludeParameterFilter)
    (ps : List ParameterRef) :
    ∀ pr ∈ removeExcludedParams filters ps, ∀ p, pr.value = some p →
      excludedBy filters p = false := by
  intro pr hpr p hv
  by_cases hf : filters.isEmpty
  · have : filters = [] := List.isEmpty_iff.mp hf
    subst this
    rfl
  · simp only [removeExcludedParams, if_neg hf] at hpr
    have h := (List.mem_filter.mp hpr).2
    rw [hv] at h
    simpa using h

/-- C6: the parameter stage first injects every configured extra
parameter (with the unconstrained string-type default schema when none
is configured) unless a parameter with the same (name, location) pair
already exists — existing parameters stay unchanged in place, the count
of a pair never exceeds its pre-existing count or one — and then the
removal filters run against the post-injection list, so no surviving
valued parameter matches a removal filter. -/
theorem c6_parameter_stage (cfgs : List ParameterConfig) (filters : List ExcludeParameterFilter)
    (tags : List String) (ps : List ParameterRef) (rb : Option RequestBodyRef)
    (resps : List (String × ResponseRef)) (cbs : List (String × CallbackRef))
    (hnd : (cfgs.map (fun c => (c.name, c.inLoc))).Nodup) :
    (modifyParamsOp cfgs filters (.mk tags ps rb resps cbs) =
      .mk tags (removeExcludedParams filters (injectExtras cfgs ps)) rb resps cbs) ∧
    (∃ suffix, injectExtras cfgs ps = ps ++ suffix ∧
      ∀ pr ∈ suffix, ∃ cfg ∈ cfgs, pr = ⟨"", some (toOpenAPI3Parameter cfg)⟩) ∧
    (∀ cfg ∈ cfgs, paramExists ps cfg.name cfg.inLoc = false →
      (⟨"", some (toOpenAPI3Parameter cfg)⟩ : ParameterRef) ∈ injectExtras cfgs ps) ∧
    (∀ n l, countNL (injectExtras cfgs ps) n l =
      if 0 < countNL ps n l then countNL ps n l
      else if cfgs.any (fun c => c.name == n && c.inLoc == l) then 1 else 0) ∧
    (∀ cfg : ParameterConfig, cfg.schema = none →
      (toOpenAPI3Parameter cfg).schema =
        some ⟨"", some (.mk "string" "" "" none [] none [] [] [] none)⟩) ∧
    (∀ pr ∈ removeExcludedParams filters (injectExtras cfgs ps),
      ∀ p, pr.value = some p → excludedBy filters p = false) := by
  refine ⟨rfl, injectExtras_prefix _ _, injectExtras_mem cfgs ps hnd,
    fun n l => injectExtras_countNL cfgs ps n l, ?_, removeExcluded_keeps_clean _ _⟩
  intro cfg h
  simp [toOpenAPI3Parameter, h]

def cfgC6 : ParameterConfig := ⟨"X-Trace", "header", "", false, false, false, none⟩

def exclC6 : ExcludeParameterFilter := ⟨"X-Trace", ""⟩

theorem c6_parameter_stage_witness :
    (modifyParamsOp [cfgC6] [exclC6] (.mk [] [] none [] []) =
      .mk [] (removeExcludedParams [exclC6] (injectExtras [cfgC6] [])) none [] []) ∧
    (∃ suffix, injectExtras [cfgC6] [] = [] ++ suffix ∧
      ∀ pr ∈ suffix, ∃ cfg ∈ [cfgC6], pr = ⟨"", some (toOpenAPI3Parameter cfg)⟩) ∧
    (∀ cfg ∈ [cfgC6], paramExists [] cfg.name cfg.inLoc = false →
      (⟨"", some (toOpenAPI3Parameter cfg)⟩ : ParameterRef) ∈ injectExtras [cfgC6] []) ∧
    (∀ n l, countNL (injectExtras [cfgC6] []) n l =
      if 0 < countNL [] n l then countNL [] n l
      else if [cfgC6].any (fun c => c.name == n && c.inLoc == l) then 1 else 0) ∧
    (∀ cfg : ParameterConfig, cfg.schema = none →
      (toOpenAPI3Parameter cfg).schema =
        some ⟨"", some (.mk "string" "" "" none [] none [] [] [] none)⟩) ∧
    (∀ pr ∈ removeExcludedParams [exclC6] (injectExtras [cfgC6] []),
      ∀ p, pr.value = some p → excludedBy [exclC6] p = false) :=
  c6_parameter_stage [cfgC6] [exclC6] [] [] none [] [] (by simp)

/-! ## C3: merging a path item into the composite -/

theorem any_congr_mem {α : Type} (l : List α) (f g : α → Bool) (h : ∀ x ∈ l, f x = g x) :
    l.any f = l.any g := by
  induction l with
  | nil => rfl
  | cons a as ih =>
    simp only [List.any_cons]
    rw [h a (by simp), ih (fun x hx => h x (by simp [hx]))]

theorem mergeParamStep_none (acc : List ParameterRef) (pr : ParameterRef)
    (hv : pr.value = none) : mergeParamStep acc pr = acc ++ [pr] := by
  simp only [mergeParamStep]
  rw [if_neg]
  simp only [Bool.not_eq_true, List.any_eq_false]
  intro x _
  rw [hv]
  cases x.value <;> simp

theorem mergeParamStep_some (acc : List ParameterRef) (pr : ParameterRef) (q : Parameter)
    (hv : pr.value = some q) :
    mergeParamStep acc pr =
      if paramExists acc q.name q.inLoc then acc else acc ++ [pr] := by
  simp only [mergeParamStep, paramExists_eq_any]
  rw [any_congr_mem acc _ (fun x => prMatches x q.name q.inLoc)]
  intro x _
  rw [hv]
  cases hx : x.value <;> simp [prMatches, hx]

theorem mergeParams_prefix (sps : List ParameterRef) :
    ∀ acc, ∃ added, sps.foldl mergeParamStep acc = acc ++ added ∧
      ∀ pr ∈ added, pr ∈ sps := by
  induction sps with
  | nil => intro acc; exact ⟨[], by simp, by simp⟩
  | cons pr rest ih =>
    intro acc
    simp only [List.foldl_cons]
    cases hv : pr.value with
    | none =>
      rw [mergeParamStep_none acc pr hv]
      obtain ⟨s, hs, hmem⟩ := ih (acc ++ [pr])
      exact ⟨pr :: s, by simpa [List.append_assoc] using hs,
        fun x hx => by
          rcases List.mem_cons.mp hx with he | hx2
          · simp [he]
          · simp [hmem x hx2]⟩
    | some q =>
      rw [mergeParamStep_some acc pr q hv]
      by_cases hpe : paramExists acc q.name q.inLoc = true
      · rw [if_pos hpe]
        obtain ⟨s, hs, hmem⟩ := ih acc
        exact ⟨s, hs, fun x hx => by simp [hmem x hx]⟩
      · rw [if_neg hpe]
        obtain ⟨s, hs, hmem⟩ := ih (acc ++ [pr])
        exact ⟨pr :: s, by simpa [List.append_assoc] using hs,
          fun x hx => by
            rcases List.mem_cons.mp hx with he | hx2
            · simp [he]
            · simp [hmem x hx2]⟩

theorem countNL_single_some (pr : ParameterRef) (q : Parameter) (hv : pr.value = some q)
    (n l : String) :
    countNL [pr] n l = if q.name == n && q.inLoc == l then 1 else 0 := by
  simp only [countNL, List.filter_cons, List.filter_nil, prMatches, hv]
  split <;> simp_all

theorem mergeParams_countNL (sps : List ParameterRef) :
    ∀ acc n l, countNL (sps.foldl mergeParamStep acc) n l =
      if 0 < countNL acc n l then countNL acc n l
      else min (countNL sps n l) 1 := by
  induction sps with
  | nil =>
    intro acc n l
    simp only [List.foldl_nil, countNL, List.filter_nil, List.length_nil]
    split <;> omega
  | cons pr rest ih =>
    intro acc n l
    simp only [List.foldl_cons]
    have hcnt_cons : countNL (pr :: rest) n l = countNL [pr] n l + countNL rest n l := by
      simpa using countNL_append [pr] rest n l
    cases hv : pr.value with
    | none =>
      have h0 : countNL [pr] n l = 0 := by simp [countNL, List.filter_cons, prMatches, hv]
      rw [mergeParamStep_none acc pr hv, ih (acc ++ [pr]) n l, countNL_append, hcnt_cons, h0]
      simp [countNL, List.filter_cons, prMatches, hv]
    | some q =>
      rw [mergeParamStep_some acc pr q hv]
      by_cases hm : (q.name == n && q.inLoc == l) = true
      · obtain ⟨hn, hl⟩ : q.name = n ∧ q.inLoc = l := by simpa using hm
        subst hn; subst hl
        by_cases hpe : paramExists acc q.name q.inLoc = true
        · rw [if_pos hpe, ih acc q.name q.inLoc]
          have hpos := (paramExists_iff_countNL acc q.name q.inLoc).mp hpe
          rw [if_pos hpos, if_pos hpos]
        · rw [if_neg hpe]
          have h0 : countNL acc q.name q.inLoc = 0 := by
            by_cases h1 : 0 < countNL acc q.name q.inLoc
            · exact absurd ((paramExists_iff_countNL acc q.name q.inLoc).mpr h1) hpe
            · omega
          rw [ih (acc ++ [pr]) q.name q.inLoc, countNL_append, h0,
            countNL_single_some pr q hv, hcnt_cons, countNL_single_some pr q hv]
          simp
      · have h0 : countNL [pr] n l = 0 := by
          rw [countNL_single_some pr q hv, if_neg (by simp [hm])]
        rw [hcnt_cons, h0]
        by_cases hpe : paramExists acc q.name q.inLoc = true
        · rw [if_pos hpe, ih acc n l]
          simp
        · rw [if_neg hpe, ih (acc ++ [pr]) n l, countNL_append, h0]
          simp

theorem lookupA_setAssoc_self {α : Type} (l : List (String × α)) (k : String) (v : α) :
    lookupA (setAssoc l k v) k = some v := by
  induction l with
  | nil => simp [setAssoc, lookupA]
  | cons h rest ih =>
    by_cases hk : h.1 = k
    · simp [setAssoc, lookupA, hk]
    · simp only [setAssoc]
      rw [if_neg hk]
      simp [lookupA, hk, ih]

theorem lookupA_setAssoc_ne {α : Type} (l : List (String × α)) (k : String) (v : α)
    (p : String) (h : k ≠ p) :
    lookupA (setAssoc l k v) p = lookupA l p := by
  induction l with
  | nil => simp [setAssoc, lookupA, h]
  | cons e rest ih =>
    by_cases hk : e.1 = k
    · simp only [setAssoc]
      rw [if_pos hk]
      simp only [lookupA]
      rw [if_neg (by rw [hk]; exact h), if_neg (by rw [hk]; exact h)]
    · simp only [setAssoc]
      rw [if_neg hk]
      simp only [lookupA, ih]

theorem lookupA_append_ne {α : Type} (l : List (String × α)) (e : String × α)
    (p : String) (h : e.1 ≠ p) :
    lookupA (l ++ [e]) p = lookupA l p := by
  induction l with
  | nil => simp [lookupA, h]
  | cons x rest ih =>
    by_cases hx : x.1 = p <;> simp [lookupA, hx, ih]

theorem mergePathStep_lookup_ne (acc : List (String × PathItem)) (e : String × PathItem)
    (p : String) (h : e.1 ≠ p) :
    lookupA (mergePathStep acc e) p = lookupA acc p := by
  simp only [mergePathStep]
  cases lookupA acc e.1 with
  | some existing => exact lookupA_setAssoc_ne acc e.1 _ p h
  | none => exact lookupA_append_ne acc e p h

theorem mergePaths_cons (master : List (String × PathItem)) (e : String × PathItem)
    (rest : List (String × PathItem)) :
    mergePaths master (e :: rest) = mergePaths (mergePathStep master e) rest := rfl

theorem mergePaths_preserve (rest : List (String × PathItem)) (p : String)
    (hrest : ∀ e ∈ rest, e.1 ≠ p) :
    ∀ acc, lookupA (mergePaths acc rest) p = lookupA acc p := by
  induction rest with
  | nil => intro acc; rfl
  | cons e es ih =>
    intro acc
    rw [mergePaths_cons, ih (fun x hx => hrest x (by simp [hx])) (mergePathStep acc e),
      mergePathStep_lookup_ne acc e p (hrest e (by simp))]

theorem mergePaths_lookup (docPaths : List (String × PathItem)) :
    ∀ master p dm dp, (docPaths.map Prod.fst).Nodup →
      lookupA master p = some dm → lookupA docPaths p = some dp →
      lookupA (mergePaths master docPaths) p = some (mergePathItem dm dp) := by
  induction docPaths with
  | nil => intro master p dm dp _ _ hd; simp [lookupA] at hd
  | cons e rest ih =>
    intro master p dm dp hnd hm hd
    rw [List.map_cons] at hnd
    have hnd2 := List.nodup_cons.mp hnd
    rw [mergePaths_cons]
    by_cases hp : e.1 = p
    · have hdp : e.2 = dp := by
        simp only [lookupA, if_pos hp] at hd
        exact Option.some_inj.mp hd
      have hrest : ∀ x ∈ rest, x.1 ≠ p := by
        intro x hx he
        exact hnd2.1 (by
          rw [hp, ← he]
          exact List.mem_map.mpr ⟨x, hx, rfl⟩)
      have hstep : mergePathStep master e = setAssoc master e.1 (mergePathItem dm e.2) := by
        simp only [mergePathStep]
        rw [hp, hm]
      rw [mergePaths_preserve rest p hrest, hstep, hdp, hp, lookupA_setAssoc_self]
    · have hd2 : lookupA rest p = some dp := by
        simp only [lookupA, if_neg hp] at hd
        exact hd
      have hm2 : lookupA (mergePathStep master e) p = some dm := by
        rw [mergePathStep_lookup_ne master e p hp]
        exact hm
      exact ih (mergePathStep master e) p dm dp hnd2.2 hm2 hd2

theorem mergePathItem_getOp (dest src : PathItem) (m : Method) :
    (mergePathItem dest src).getOp m = (dest.getOp m).or (src.getOp m) := by
  cases dest with
  | mk g p pu d pa h o t dps =>
    cases src with
    | mk g2 p2 pu2 d2 pa2 h2 o2 t2 sps =>
      cases m <;> rfl

theorem mergeSpec_paths (m : MasterState) (d : Doc) (disputed : Bool) (res : MasterState)
    (h : mergeSpec m d disputed = .ok res) :
    res.paths = mergePaths m.paths d.paths := by
  simp only [mergeSpec] at h
  cases hc : d.components with
  | none =>
    rw [hc] at h
    simp only [pure, Except.pure, Except.bind] at h
    cases h
    rfl
  | some c =>
    rw [hc] at h
    simp only [Except.bind] at h
    cases hmc : mergeComponents m.comps c disputed with
    | error e => rw [hmc] at h; exact absurd h (by simp)
    | ok comps =>
      rw [hmc] at h
      simp only [pure, Except.pure] at h
      cases h
      rfl

theorem mergePathItem_params (dest src : PathItem) :
    (mergePathItem dest src).parameters = src.parameters.foldl mergeParamStep dest.parameters := by
  cases dest with
  | mk g p pu d pa h o t dps =>
    cases src with
    | mk g2 p2 pu2 d2 pa2 h2 o2 t2 sps => rfl

/-- C3: when the composite and the incoming document both hold path `p`,
the merged mapping binds `p` to `mergePathItem` of the two items; per
HTTP method the composite operation wins and the incoming operation only
fills empty slots; path-level parameters are unioned in place with the
composite entries kept as a prefix and at most one entry added per
incoming (name, location) pair not already present; and a successful
`mergeSpec` run carries exactly this merged path mapping. -/
theorem c3_pathitem_merge (m : MasterState) (d : Doc) (disputed : Bool) (p : String)
    (dm dp : PathItem) (hnd : (d.paths.map Prod.fst).Nodup)
    (hm : lookupA m.paths p = some dm) (hd : lookupA d.paths p = some dp) :
    lookupA (mergePaths m.paths d.paths) p = some (mergePathItem dm dp) ∧
    (∀ meth : Method, (mergePathItem dm dp).getOp meth = (dm.getOp meth).or (dp.getOp meth)) ∧
    (∃ added, (mergePathItem dm dp).parameters = dm.parameters ++ added ∧
      ∀ pr ∈ added, pr ∈ dp.parameters) ∧
    (∀ n l, countNL (mergePathItem dm dp).parameters n l =
      if 0 < countNL dm.parameters n l then countNL dm.parameters n l
      else min (countNL dp.parameters n l) 1) ∧
    (∀ res, mergeSpec m d disputed = .ok res → res.paths = mergePaths m.paths d.paths) := by
  refine ⟨mergePaths_lookup d.paths m.paths p dm dp hnd hm hd,
    mergePathItem_getOp dm dp, ?_, ?_, fun res h => mergeSpec_paths m d disputed res h⟩
  · rw [mergePathItem_params]
    exact mergeParams_prefix dp.parameters dm.parameters
  · intro n l
    rw [mergePathItem_params]
    exact mergeParams_countNL dp.parameters dm.parameters n l

def compsEmpty : Components := ⟨[], [], [], [], [], [], [], [], []⟩

def itemPostC3 : PathItem := .mk none (some opC10) none none none none none none []

def masterC3 : MasterState := ⟨[("/users", itemPostC3)], compsEmpty, []⟩

def docC3 : Doc := ⟨[("/users", itemGetC10)], none, []⟩

theorem c3_pathitem_merge_witness :
    lookupA (mergePaths masterC3.paths docC3.paths) "/users" =
      some (mergePathItem itemPostC3 itemGetC10) ∧
    (∀ meth : Method, (mergePathItem itemPostC3 itemGetC10).getOp meth =
      (itemPostC3.getOp meth).or (itemGetC10.getOp meth)) ∧
    (∃ added, (mergePathItem itemPostC3 itemGetC10).parameters =
      itemPostC3.parameters ++ added ∧ ∀ pr ∈ added, pr ∈ itemGetC10.parameters) ∧
    (∀ n l, countNL (mergePathItem itemPostC3 itemGetC10).parameters n l =
      if 0 < countNL itemPostC3.parameters n l then countNL itemPostC3.parameters n l
      else min (countNL itemGetC10.parameters n l) 1) ∧
    (∀ res, mergeSpec masterC3 docC3 false = .ok res →
      res.paths = mergePaths masterC3.paths docC3.paths) :=
  c3_pathitem_merge masterC3 docC3 false "/users" itemPostC3 itemGetC10
    (by simp [docC3]) rfl rfl

/-! ## C1: schema collisions in `mergeComponents` -/

theorem lookupA_mem_keys {α : Type} (l : List (String × α)) (k : String) (e : α)
    (h : lookupA l k = some e) : k ∈ l.map Prod.fst := by
  induction l with
  | nil => simp [lookupA] at h
  | cons x rest ih =>
    by_cases hx : x.1 = k
    · simp [hx]
    · simp only [lookupA, if_neg hx] at h
      simp [ih h]

theorem lookupA_none_of_not_mem {α : Type} (l : List (String × α)) (k : String)
    (h : k ∉ l.map Prod.fst) : lookupA l k = none := by
  induction l with
  | nil => rfl
  | cons x rest ih =>
    simp only [List.map_cons, List.mem_cons] at h
    push_neg at h
    have hxk : ¬ x.1 = k := fun he => h.1 he.symm
    simp only [lookupA, if_neg hxk]
    exact ih h.2

theorem lookupA_isSome_of_mem {α : Type} (l : List (String × α)) (k : String)
    (h : k ∈ l.map Prod.fst) : (lookupA l k).isSome = true := by
  induction l with
  | nil => simp at h
  | cons x rest ih =>
    by_cases hx : x.1 = k
    · simp [lookupA, hx]
    · simp only [List.map_cons, List.mem_cons] at h
      rcases h with h1 | h2
      · exact absurd h1.symm hx
      · simp [lookupA, hx, ih h2]

theorem lookupA_not_mem_of_none {α : Type} (l : List (String × α)) (k : String)
    (h : lookupA l k = none) : k ∉ l.map Prod.fst := by
  intro hk
  have := lookupA_isSome_of_mem l k hk
  rw [h] at this
  simp at this

theorem lookupA_append_left {α : Type} (l l2 : List (String × α)) (k : String) (e : α)
    (h : lookupA l k = some e) : lookupA (l ++ l2) k = some e := by
  induction l with
  | nil => simp [lookupA] at h
  | cons x rest ih =>
    by_cases hx : x.1 = k
    · simp only [lookupA, if_pos hx] at h
      simp [lookupA, hx, h]
    · simp only [lookupA, if_neg hx] at h
      simp only [List.cons_append, lookupA, if_neg hx]
      exact ih h

theorem countKey_append {α : Type} (l l2 : List (String × α)) (k : String) :
    countKey (l ++ l2) k = countKey l k + countKey l2 k := by
  simp [countKey, List.filter_append]

theorem countKey_zero_of_not_mem {α : Type} (l : List (String × α)) (k : String)
    (h : k ∉ l.map Prod.fst) : countKey l k = 0 := by
  induction l with
  | nil => rfl
  | cons x rest ih =>
    simp only [List.map_cons, List.mem_cons] at h
    push_neg at h
    have hxk : ¬ x.1 = k := fun he => h.1 he.symm
    simp only [countKey, List.filter_cons]
    rw [if_neg (by simpa using hxk)]
    simpa [countKey] using ih h.2

theorem countKey_one_of_nodup {α : Type} (l : List (String × α)) (k : String) (e : α)
    (hnd : (l.map Prod.fst).Nodup) (h : lookupA l k = some e) : countKey l k = 1 := by
  induction l with
  | nil => simp [lookupA] at h
  | cons x rest ih =>
    rw [List.map_cons] at hnd
    have hnd2 := List.nodup_cons.mp hnd
    by_cases hx : x.1 = k
    · have hz : countKey rest k = 0 :=
        countKey_zero_of_not_mem rest k (by rw [← hx]; exact hnd2.1)
      simp only [countKey, List.filter_cons]
      rw [if_pos (by simpa using hx)]
      simpa [countKey] using hz
    · simp only [lookupA, if_neg hx] at h
      simp only [countKey, List.filter_cons]
      rw [if_neg (by simpa using hx)]
      exact ih hnd2.2 h

theorem mergeSchemas_nil (master : List (String × SchemaRef)) (disputed : Bool) :
    mergeSchemas master [] disputed = .ok master := rfl

theorem mergeSchemas_cons_found (master : List (String × SchemaRef))
    (p : String × SchemaRef) (rest : List (String × SchemaRef)) (disputed : Bool)
    (e : SchemaRef) (hl : lookupA master p.1 = some e) :
    mergeSchemas master (p :: rest) disputed =
      (if !(schemasEqual (some e) (some p.2)) && !disputed
       then .error (collisionMsg p.1)
       else mergeSchemas master rest disputed) := by
  simp only [mergeSchemas, List.foldlM_cons, hl]
  by_cases hc : (!(schemasEqual (some e) (some p.2)) && !disputed) = true
  · rw [if_pos hc, if_pos hc]
    rfl
  · rw [if_neg hc, if_neg hc]
    rfl

theorem mergeSchemas_cons_new (master : List (String × SchemaRef))
    (p : String × SchemaRef) (rest : List (String × SchemaRef)) (disputed : Bool)
    (hl : lookupA master p.1 = none) :
    mergeSchemas master (p :: rest) disputed = mergeSchemas (master ++ [p]) rest disputed := by
  simp only [mergeSchemas, List.foldlM_cons, hl]
  rfl

theorem mergeSchemas_collision (doc : List (String × SchemaRef)) :
    ∀ master, (doc.map Prod.fst).Nodup →
      (∃ n s e, (n, s) ∈ doc ∧ lookupA master n = some e ∧
        schemasEqual (some e) (some s) = false) →
      ∃ n2 s2 e2, (n2, s2) ∈ doc ∧ lookupA master n2 = some e2 ∧
        schemasEqual (some e2) (some s2) = false ∧
        mergeSchemas master doc false = .error (collisionMsg n2) := by
  induction doc with
  | nil => intro master _ hex; simp at hex
  | cons p rest ih =>
    intro master hnd hex
    rw [List.map_cons] at hnd
    have hnd2 := List.nodup_cons.mp hnd
    cases hl : lookupA master p.1 with
    | some e0 =>
      by_cases heq : schemasEqual (some e0) (some p.2) = false
      · refine ⟨p.1, p.2, e0, by simp, hl, heq, ?_⟩
        rw [mergeSchemas_cons_found master p rest false e0 hl]
        rw [if_pos (by simp [heq])]
      · have heqt : schemasEqual (some e0) (some p.2) = true := by
          cases h : schemasEqual (some e0) (some p.2)
          · exact absurd h heq
          · rfl
        obtain ⟨n, s, e, hmem, hle, hne⟩ := hex
        have hmem2 : (n, s) ∈ rest := by
          rcases List.mem_cons.mp hmem with h1 | h2
          · exfalso
            have hn : n = p.1 := congrArg Prod.fst h1
            have hs : s = p.2 := congrArg Prod.snd h1
            rw [hn, hl] at hle
            have he0 : e0 = e := by injection hle
            rw [← he0, hs, heqt] at hne
            exact absurd hne (by simp)
          · exact h2
        obtain ⟨n2, s2, e2, hm2, hl2, hne2, hres⟩ :=
          ih master hnd2.2 ⟨n, s, e, hmem2, hle, hne⟩
        refine ⟨n2, s2, e2, by simp [hm2], hl2, hne2, ?_⟩
        rw [mergeSchemas_cons_found master p rest false e0 hl, if_neg (by simp [heqt])]
        exact hres
    | none =>
      obtain ⟨n, s, e, hmem, hle, hne⟩ := hex
      have hmem2 : (n, s) ∈ rest := by
        rcases List.mem_cons.mp hmem with h1 | h2
        · exfalso
          have hn : n = p.1 := congrArg Prod.fst h1
          rw [hn, hl] at hle
          exact absurd hle (by simp)
        · exact h2
      have hnp : n ≠ p.1 := by
        intro he
        exact hnd2.1 (he ▸ List.mem_map.mpr ⟨(n, s), hmem2, rfl⟩)
      have hle2 : lookupA (master ++ [p]) n = some e := by
        rw [lookupA_append_ne master p n (fun hp => hnp hp.symm)]
        exact hle
      obtain ⟨n2, s2, e2, hm2, hl2, hne2, hres⟩ :=
        ih (master ++ [p]) hnd2.2 ⟨n, s, e, hmem2, hle2, hne⟩
      have hn2p : n2 ≠ p.1 := by
        intro he
        exact hnd2.1 (he ▸ List.mem_map.mpr ⟨(n2, s2), hm2, rfl⟩)
      have hl2m : lookupA master n2 = some e2 := by
        rw [lookupA_append_ne master p n2 (fun hp => hn2p hp.symm)] at hl2
        exact hl2
      refine ⟨n2, s2, e2, by simp [hm2], hl2m, hne2, ?_⟩
      rw [mergeSchemas_cons_new master p rest false hl]
      exact hres

theorem mergeSchemas_ok (doc : List (String × SchemaRef)) :
    ∀ master, (doc.map Prod.fst).Nodup →
      (∀ n s e, (n, s) ∈ doc → lookupA master n = some e →
        schemasEqual (some e) (some s) = true) →
      ∃ res, mergeSchemas master doc false = .ok res ∧
        ∀ n e, lookupA master n = some e →
          lookupA res n = some e ∧ countKey res n = countKey master n := by
  induction doc with
  | nil =>
    intro master _ _
    exact ⟨master, rfl, fun n e h => ⟨h, rfl⟩⟩
  | cons p rest ih =>
    intro master hnd hall
    rw [List.map_cons] at hnd
    have hnd2 := List.nodup_cons.mp hnd
    cases hl : lookupA master p.1 with
    | some e0 =>
      have heq : schemasEqual (some e0) (some p.2) = true :=
        hall p.1 p.2 e0 (by simp) hl
      rw [mergeSchemas_cons_found master p rest false e0 hl, if_neg (by simp [heq])]
      exact ih master hnd2.2 (fun n s e hm hle => hall n s e (by simp [hm]) hle)
    | none =>
      rw [mergeSchemas_cons_new master p rest false hl]
      have hnotmem : p.1 ∉ master.map Prod.fst := lookupA_not_mem_of_none master p.1 hl
      have hall2 : ∀ n s e, (n, s) ∈ rest → lookupA (master ++ [p]) n = some e →
          schemasEqual (some e) (some s) = true := by
        intro n s e hm hle
        have hnp : n ≠ p.1 := by
          intro he
          exact hnd2.1 (he ▸ List.mem_map.mpr ⟨(n, s), hm, rfl⟩)
        rw [lookupA_append_ne master p n (fun hp => hnp hp.symm)] at hle
        exact hall n s e (by simp [hm]) hle
      obtain ⟨res, hres, hprop⟩ := ih (master ++ [p]) hnd2.2 hall2
      refine ⟨res, hres, ?_⟩
      intro n e hle
      have hnp : n ≠ p.1 := by
        intro he
        exact hnotmem (he ▸ lookupA_mem_keys master n e hle)
      have hle2 : lookupA (master ++ [p]) n = some e := lookupA_append_left master [p] n e hle
      obtain ⟨h1, h2⟩ := hprop n e hle2
      refine ⟨h1, ?_⟩
      rw [h2, countKey_append]
      have : countKey [p] n = 0 :=
        countKey_zero_of_not_mem [p] n (by simpa using hnp)
      omega

theorem mergeComponents_schemas_error (master : Components) (c : Components) (disputed : Bool)
    (e : String) (h : mergeSchemas master.schemas c.schemas disputed = .error e) :
    mergeComponents master c disputed = .error e := by
  simp only [mergeComponents, h]
  rfl

theorem mergeComponents_schemas_ok (master : Components) (c : Components) (disputed : Bool)
    (s : List (String × SchemaRef)) (h : mergeSchemas master.schemas c.schemas disputed = .ok s) :
    ∃ res, mergeComponents master c disputed = .ok res ∧ res.schemas = s := by
  simp only [mergeComponents, h]
  exact ⟨_, rfl, rfl⟩

theorem mergeSpec_components_error (m : MasterState) (d : Doc) (c : Components)
    (disputed : Bool) (e : String) (hc : d.components = some c)
    (h : mergeComponents m.comps c disputed = .error e) :
    mergeSpec m d disputed = .error e := by
  simp only [mergeSpec, hc, h]
  rfl

theorem mergeSpec_components_ok (m : MasterState) (d : Doc) (c : Components)
    (disputed : Bool) (comps : Components) (hc : d.components = some c)
    (h : mergeComponents m.comps c disputed = .ok comps) :
    ∃ res, mergeSpec m d disputed = .ok res ∧ res.comps = comps := by
  simp only [mergeSpec, hc, h]
  exact ⟨_, rfl, rfl⟩

/-- C1: merging a document whose components bag holds a schema name
already present in the composite fails with a collision error naming a
colliding schema when the two definitions are not `schemasEqual` and the
input is not disputed; when every such name carries an equal definition
the merge succeeds and the composite keeps exactly one schema under each
pre-existing name, namely the composite's own. -/
theorem c1_schema_collision (m : MasterState) (d : Doc) (c : Components)
    (hc : d.components = some c)
    (hdn : (c.schemas.map Prod.fst).Nodup)
    (hmn : (m.comps.schemas.map Prod.fst).Nodup) :
    ((∃ n s e, (n, s) ∈ c.schemas ∧ lookupA m.comps.schemas n = some e ∧
        schemasEqual (some e) (some s) = false) →
      ∃ n2 s2 e2, (n2, s2) ∈ c.schemas ∧ lookupA m.comps.schemas n2 = some e2 ∧
        schemasEqual (some e2) (some s2) = false ∧
        mergeSpec m d false = .error (collisionMsg n2)) ∧
    ((∀ n s e, (n, s) ∈ c.schemas → lookupA m.comps.schemas n = some e →
        schemasEqual (some e) (some s) = true) →
      ∃ res, mergeSpec m d false = .ok res ∧
        ∀ n e, lookupA m.comps.schemas n = some e →
          lookupA res.comps.schemas n = some e ∧ countKey res.comps.schemas n = 1) := by
  constructor
  · intro hex
    obtain ⟨n2, s2, e2, hm2, hl2, hne2, hres⟩ :=
      mergeSchemas_collision c.schemas m.comps.schemas hdn hex
    exact ⟨n2, s2, e2, hm2, hl2, hne2,
      mergeSpec_components_error m d c false _ hc
        (mergeComponents_schemas_error _ _ _ _ hres)⟩
  · intro hall
    obtain ⟨s, hs, hprop⟩ := mergeSchemas_ok c.schemas m.comps.schemas hdn hall
    obtain ⟨comps, hcomp, hcs⟩ := mergeComponents_schemas_ok m.comps c false s hs
    obtain ⟨res, hres, hrc⟩ := mergeSpec_components_ok m d c false comps hc hcomp
    refine ⟨res, hres, ?_⟩
    intro n e hle
    obtain ⟨h1, h2⟩ := hprop n e hle
    rw [hrc, hcs]
    refine ⟨h1, ?_⟩
    rw [h2]
    exact countKey_one_of_nodup m.comps.schemas n e hmn hle

def schemaUser : SchemaRef := .mk "" (some (.mk "object" "" "" none [] none [] [] [] none))

def compsC1 : Components := { compsEmpty with schemas := [("User", schemaUser)] }

def masterC1 : MasterState := ⟨[], compsC1, []⟩

def docC1 : Doc := ⟨[], some compsC1, []⟩

theorem c1_schema_collision_witness :
    ((∃ n s e, (n, s) ∈ compsC1.schemas ∧ lookupA masterC1.comps.schemas n = some e ∧
        schemasEqual (some e) (some s) = false) →
      ∃ n2 s2 e2, (n2, s2) ∈ compsC1.schemas ∧ lookupA masterC1.comps.schemas n2 = some e2 ∧
        schemasEqual (some e2) (some s2) = false ∧
        mergeSpec masterC1 docC1 false = .error (collisionMsg n2)) ∧
    ((∀ n s e, (n, s) ∈ compsC1.schemas → lookupA masterC1.comps.schemas n = some e →
        schemasEqual (some e) (some s) = true) →
      ∃ res, mergeSpec masterC1 docC1 false = .ok res ∧
        ∀ n e, lookupA masterC1.comps.schemas n = some e →
          lookupA res.comps.schemas n = some e ∧ countKey res.comps.schemas n = 1) :=
  c1_schema_collision masterC1 docC1 compsC1 rfl (by simp [compsC1, compsEmpty])
    (by simp [masterC1, compsC1, compsEmpty])

/-! ## C2: dispute prefix renames and reference rewriting -/

theorem applyRen_empty (r : String) : applyRen [] r = r := by
  simp [applyRen, lookupA]

mutual

theorem collect_updSR (ren : List (String × String)) (s : SchemaRef) :
    collectSR (updateSchemaRefRefs ren s) = (collectSR s).map (applyRen ren) := by
  match s with
  | .mk r none => simp [updateSchemaRefRefs, collectSR]
  | .mk r (some sc) => simp [updateSchemaRefRefs, collectSR, collect_updSchemaVal ren sc]

theorem collect_updSchemaVal (ren : List (String × String)) (s : Schema) :
    collectSchemaVal (updSchemaVal ren s) = (collectSchemaVal s).map (applyRen ren) := by
  match s with
  | .mk t f d it pr ap ao oo an no =>
    simp [updSchemaVal, collectSchemaVal, collect_updSROpt ren it, collect_updProps ren pr,
      collect_updSROpt ren ap, collect_updSRList ren ao, collect_updSRList ren oo,
      collect_updSRList ren an, collect_updSROpt ren no]

theorem collect_updSROpt (ren : List (String × String)) (s : Option SchemaRef) :
    collectSROpt (updSROpt ren s) = (collectSROpt s).map (applyRen ren) := by
  match s with
  | none => simp [updSROpt, collectSROpt]
  | some sc => simp [updSROpt, collectSROpt, collect_updSR ren sc]

theorem collect_updProps (ren : List (String × String)) (l : List (String × SchemaRef)) :
    collectProps (updProps ren l) = (collectProps l).map (applyRen ren) := by
  match l with
  | [] => simp [updProps, collectProps]
  | (k, s) :: rest =>
    simp [updProps, collectProps, collect_updSR ren s, collect_updProps ren rest]

theorem collect_updSRList (ren : List (String × String)) (l : List SchemaRef) :
    collectSRList (updSRList ren l) = (collectSRList l).map (applyRen ren) := by
  match l with
  | [] => simp [updSRList, collectSRList]
  | s :: rest =>
    simp [updSRList, collectSRList, collect_updSR ren s, collect_updSRList ren rest]

end

theorem collect_updSchemaOpt (ren : List (String × String)) (o : Option SchemaRef) :
    collectSchemaOpt (o.map (updateSchemaRefRefs ren)) =
      (collectSchemaOpt o).map (applyRen ren) := by
  cases o with
  | none => rfl
  | some s => simpa [collectSchemaOpt] using collect_updSR ren s

theorem flatMap_upd_generic {β : Type} (l : List β) (f : β → β) (g : β → List String)
    (ren : List (String × String)) (h : ∀ x ∈ l, g (f x) = (g x).map (applyRen ren)) :
    (l.map f).flatMap g = (l.flatMap g).map (applyRen ren) := by
  induction l with
  | nil => rfl
  | cons x rest ih =>
    simp only [List.map_cons, List.flatMap_cons, List.map_append]
    rw [h x (by simp), ih (fun y hy => h y (by simp [hy]))]

theorem collect_updParamRef (ren : List (String × String)) (pr : ParameterRef) :
    collectParamRef (updateParameterRefRefs ren pr) = (collectParamRef pr).map (applyRen ren) := by
  cases pr with
  | mk r v =>
    cases v with
    | none => simp [updateParameterRefRefs, collectParamRef]
    | some p =>
      simp [updateParameterRefRefs, collectParamRef, collect_updSchemaOpt ren p.schema]

theorem collect_updRequestBodyRef (ren : List (String × String)) (br : RequestBodyRef) :
    collectRequestBodyRef (updateRequestBodyRefRefs ren br) =
      (collectRequestBodyRef br).map (applyRen ren) := by
  cases br with
  | mk r v =>
    cases v with
    | none => simp [updateRequestBodyRefRefs, collectRequestBodyRef]
    | some b =>
      simp only [updateRequestBodyRefRefs, collectRequestBodyRef, List.map_cons]
      congr 1
      apply flatMap_upd_generic
      intro mt _
      exact collect_updSchemaOpt ren mt.2.schema

theorem collect_updHeaderRef (ren : List (String × String)) (hr : HeaderRef) :
    collectHeaderRef (updateHeaderRefRefs ren hr) = (collectHeaderRef hr).map (applyRen ren) := by
  cases hr with
  | mk r v =>
    cases v with
    | none => simp [updateHeaderRefRefs, collectHeaderRef]
    | some h => simp [updateHeaderRefRefs, collectHeaderRef, collect_updSchemaOpt ren h.schema]

theorem collect_updResponseRef (ren : List (String × String)) (rr : ResponseRef) :
    collectResponseRef (updateResponseRefRefs ren rr) =
      (collectResponseRef rr).map (applyRen ren) := by
  cases rr with
  | mk r v =>
    cases v with
    | none => simp [updateResponseRefRefs, collectResponseRef]
    | some resp =>
      simp only [updateResponseRefRefs, collectResponseRef, Option.map_some', List.map_cons,
        List.map_append]
      congr 1
      congr 1
      · apply flatMap_upd_generic
        intro mt _
        exact collect_updSchemaOpt ren mt.2.schema
      · apply flatMap_upd_generic
        intro h _
        exact collect_updHeaderRef ren h.2

mutual

theorem collect_updPathItem (ren : List (String × String)) (pi2 : PathItem) :
    collectPathItem (updatePathItemRefs ren pi2) =
      (collectPathItem pi2).map (applyRen ren) := by
  match pi2 with
  | .mk g p pu d pa h o t ps =>
    simp only [updatePathItemRefs, collectPathItem, List.map_append]
    rw [collect_updOpOpt ren g, collect_updOpOpt ren p, collect_updOpOpt ren pu,
      collect_updOpOpt ren d, collect_updOpOpt ren pa, collect_updOpOpt ren h,
      collect_updOpOpt ren o, collect_updOpOpt ren t,
      flatMap_upd_generic ps (updateParameterRefRefs ren) collectParamRef ren
        (fun pr _ => collect_updParamRef ren pr)]

theorem collect_updOperation (ren : List (String × String)) (op : Operation) :
    collectOperation (updateOperationRefs ren op) =
      (collectOperation op).map (applyRen ren) := by
  match op with
  | .mk tags ps rb resps cbs =>
    cases rb with
    | none =>
      simp only [updateOperationRefs, collectOperation, Option.map_none', List.map_append,
        List.append_nil]
      rw [collect_updCbPairs ren cbs,
        flatMap_upd_generic ps (updateParameterRefRefs ren) collectParamRef ren
          (fun pr _ => collect_updParamRef ren pr),
        flatMap_upd_generic resps (fun r => (r.1, updateResponseRefRefs ren r.2))
          (fun r => collectResponseRef r.2) ren
          (fun r _ => collect_updResponseRef ren r.2)]
    | some b =>
      simp only [updateOperationRefs, collectOperation, Option.map_some', List.map_append]
      rw [collect_updCbPairs ren cbs,
        flatMap_upd_generic ps (updateParameterRefRefs ren) collectParamRef ren
          (fun pr _ => collect_updParamRef ren pr),
        flatMap_upd_generic resps (fun r => (r.1, updateResponseRefRefs ren r.2))
          (fun r => collectResponseRef r.2) ren
          (fun r _ => collect_updResponseRef ren r.2),
        collect_updRequestBodyRef ren b]

theorem collect_updCallbackRef (ren : List (String × String)) (cb : CallbackRef) :
    collectCallbackRef (updateCallbackRefRefs ren cb) =
      (collectCallbackRef cb).map (applyRen ren) := by
  match cb with
  | .mk r none => simp [updateCallbackRefRefs, collectCallbackRef]
  | .mk r (some items) =>
    simp [updateCallbackRefRefs, collectCallbackRef, collect_updCbItems ren items]

theorem collect_updOpOpt (ren : List (String × String)) (o : Option Operation) :
    collectOpOpt (updOpOpt ren o) = (collectOpOpt o).map (applyRen ren) := by
  match o with
  | none => simp [updOpOpt, collectOpOpt]
  | some op => simp [updOpOpt, collectOpOpt, collect_updOperation ren op]

theorem collect_updCbPairs (ren : List (String × String)) (l : List (String × CallbackRef)) :
    collectCbPairs (updCbPairs ren l) = (collectCbPairs l).map (applyRen ren) := by
  match l with
  | [] => simp [updCbPairs, collectCbPairs]
  | (k, cb) :: rest =>
    simp [updCbPairs, collectCbPairs, collect_updCallbackRef ren cb,
      collect_updCbPairs ren rest]

theorem collect_updCbItems (ren : List (String × String)) (l : List (String × PathItem)) :
    collectCbItems (updCbItems ren l) = (collectCbItems l).map (applyRen ren) := by
  match l with
  | [] => simp [updCbItems, collectCbItems]
  | (k, pi2) :: rest =>
    simp [updCbItems, collectCbItems, collect_updPathItem ren pi2,
      collect_updCbItems ren rest]

end

theorem collect_updComponents (ren : List (String × String)) (c : Components) :
    collectComponents (updateComponentsRefs ren c) =
      (collectComponents c).map (applyRen ren) := by
  simp only [updateComponentsRefs, collectComponents, List.map_append]
  rw [flatMap_upd_generic c.schemas (fun p => (p.1, updateSchemaRefRefs ren p.2))
      (fun p => collectSR p.2) ren (fun p _ => collect_updSR ren p.2),
    flatMap_upd_generic c.parameters (fun p => (p.1, updateParameterRefRefs ren p.2))
      (fun p => collectParamRef p.2) ren (fun p _ => collect_updParamRef ren p.2),
    flatMap_upd_generic c.responses (fun p => (p.1, updateResponseRefRefs ren p.2))
      (fun p => collectResponseRef p.2) ren (fun p _ => collect_updResponseRef ren p.2),
    flatMap_upd_generic c.requestBodies (fun p => (p.1, updateRequestBodyRefRefs ren p.2))
      (fun p => collectRequestBodyRef p.2) ren (fun p _ => collect_updRequestBodyRef ren p.2),
    flatMap_upd_generic c.headers (fun p => (p.1, updateHeaderRefRefs ren p.2))
      (fun p => collectHeaderRef p.2) ren (fun p _ => collect_updHeaderRef ren p.2),
    flatMap_upd_generic c.callbacks (fun p => (p.1, updateCallbackRefRefs ren p.2))
      (fun p => collectCallbackRef p.2) ren (fun p _ => collect_updCallbackRef ren p.2)]

theorem map_applyRen_empty (l : List String) : l.map (applyRen []) = l := by
  rw [List.map_congr_left (fun r _ => applyRen_empty r)]
  exact List.map_id l

theorem collect_updateRefs (ren : List (String × String)) (d : Doc) :
    collectDocRefs (updateRefs ren d) = (collectDocRefs d).map (applyRen ren) := by
  by_cases he : ren.isEmpty
  · have h : ren = [] := List.isEmpty_iff.mp he
    subst h
    rw [map_applyRen_empty]
    simp [updateRefs]
  · simp only [updateRefs, if_neg he]
    simp only [collectDocRefs, List.map_append]
    rw [flatMap_upd_generic d.paths (fun p => (p.1, updatePathItemRefs ren p.2))
      (fun p => collectPathItem p.2) ren (fun p _ => collect_updPathItem ren p.2)]
    congr 1
    cases hc : d.components with
    | none => simp
    | some c => simpa using collect_updComponents ren c

theorem flatMap_renameKeys {α : Type} (pfx : String) (l : List (String × α))
    (g : α → List String) :
    (renameKeys pfx l).flatMap (fun p => g p.2) = l.flatMap (fun p => g p.2) := by
  induction l with
  | nil => rfl
  | cons x rest ih =>
    simp only [renameKeys, List.map_cons, List.flatMap_cons] at ih ⊢
    rw [ih]

theorem renameKeys_keys {α : Type} (pfx : String) (l : List (String × α)) :
    (renameKeys pfx l).map Prod.fst = (l.map Prod.fst).map (fun n => pfx ++ n) := by
  simp [renameKeys, List.map_map]

theorem mapVals_keys {α : Type} (f : α → α) (l : List (String × α)) :
    (l.map (fun p => (p.1, f p.2))).map Prod.fst = l.map Prod.fst := by
  simp [List.map_map]

theorem str_data_append (p a : String) : (p ++ a).data = p.data ++ a.data := by
  cases p
  cases a
  rfl

theorem str_append_left_inj (p a b : String) (h : p ++ a = p ++ b) : a = b := by
  have hd := congrArg String.data h
  rw [str_data_append, str_data_append] at hd
  have h2 := List.append_cancel_left hd
  cases a
  cases b
  simpa using congrArg String.mk h2

theorem append_ne_of_not_prefixes (p q : String)
    (h1 : p.data.isPrefixOf q.data = false) (h2 : q.data.isPrefixOf p.data = false) :
    ∀ a b, p ++ a ≠ q ++ b := by
  intro a b h
  have hd : p.data ++ a.data = q.data ++ b.data := by
    have h3 := congrArg String.data h
    rwa [str_data_append, str_data_append] at h3
  rcases List.append_eq_append_iff.mp hd with ⟨a2, ha1, _⟩ | ⟨c2, hc1, _⟩
  · have h4 : p.data.isPrefixOf q.data = true :=
      List.isPrefixOf_iff_prefix.mpr ⟨a2, ha1.symm⟩
    rw [h1] at h4
    exact absurd h4 (by simp)
  · have h4 : q.data.isPrefixOf p.data = true :=
      List.isPrefixOf_iff_prefix.mpr ⟨c2, hc1.symm⟩
    rw [h2] at h4
    exact absurd h4 (by simp)

theorem str_append_ne_empty (p a : String) (h : p ≠ "") : p ++ a ≠ "" := by
  intro he
  have hd := congrArg String.data he
  rw [str_data_append] at hd
  have h2 : p.data = [] := (List.append_eq_nil.mp hd).1
  apply h
  cases p
  simpa using congrArg String.mk h2

theorem lookupA_append_right {α : Type} (l1 l2 : List (String × α)) (k : String)
    (h : lookupA l1 k = none) : lookupA (l1 ++ l2) k = lookupA l2 k := by
  induction l1 with
  | nil => rfl
  | cons x rest ih =>
    simp only [lookupA] at h
    by_cases hx : x.1 = k
    · rw [if_pos hx] at h
      exact absurd h (by simp)
    · rw [if_neg hx] at h
      simp only [List.cons_append, lookupA, if_neg hx]
      exact ih h

theorem lookupA_kindRenames_hit {α : Type} (base pfx : String) (l : List (String × α))
    (n : String) (hmem : n ∈ l.map Prod.fst) :
    lookupA (kindRenames base pfx l) (base ++ n) = some (base ++ (pfx ++ n)) := by
  induction l with
  | nil => simp at hmem
  | cons x rest ih =>
    simp only [kindRenames, List.map_cons, lookupA]
    by_cases hx : x.1 = n
    · rw [if_pos (by rw [hx])]
      rw [hx]
    · rw [if_neg (fun he => hx (str_append_left_inj base x.1 n he))]
      rw [List.map_cons] at hmem
      rcases List.mem_cons.mp hmem with h1 | h2
      · exact absurd h1.symm hx
      · exact ih h2

theorem lookupA_kindRenames_none {α : Type} (base pfx : String) (l : List (String × α))
    (r : String) (h : ∀ m, r ≠ base ++ m) :
    lookupA (kindRenames base pfx l) r = none := by
  induction l with
  | nil => rfl
  | cons x rest ih =>
    simp only [kindRenames, List.map_cons, lookupA]
    rw [if_neg (fun he => h x.1 he.symm)]
    exact ih

theorem lookupA_schemaRenames_cs (pfx : String) (schemas : List (String × SchemaRef))
    (n : String) (hmem : n ∈ schemas.map Prod.fst) :
    lookupA (schemaRenames pfx schemas) ("#/components/schemas/" ++ n) =
      some ("#/components/schemas/" ++ (pfx ++ n)) := by
  induction schemas with
  | nil => simp at hmem
  | cons x rest ih =>
    simp only [schemaRenames, List.flatMap_cons, List.cons_append, List.nil_append, lookupA]
    by_cases hx : x.1 = n
    · rw [if_pos (by rw [hx])]
      rw [hx]
    · rw [if_neg (fun he => hx (str_append_left_inj _ x.1 n he))]
      rw [if_neg (append_ne_of_not_prefixes "#/definitions/" "#/components/schemas/"
        (by decide) (by decide) x.1 n)]
      rw [List.map_cons] at hmem
      rcases List.mem_cons.mp hmem with h1 | h2
      · exact absurd h1.symm hx
      · exact ih h2

theorem lookupA_schemaRenames_defs (pfx : String) (schemas : List (String × SchemaRef))
    (n : String) (hmem : n ∈ schemas.map Prod.fst) :
    lookupA (schemaRenames pfx schemas) ("#/definitions/" ++ n) =
      some ("#/components/schemas/" ++ (pfx ++ n)) := by
  induction schemas with
  | nil => simp at hmem
  | cons x rest ih =>
    simp only [schemaRenames, List.flatMap_cons, List.cons_append, List.nil_append, lookupA]
    rw [if_neg (append_ne_of_not_prefixes "#/components/schemas/" "#/definitions/"
      (by decide) (by decide) x.1 n)]
    by_cases hx : x.1 = n
    · rw [if_pos (by rw [hx])]
      rw [hx]
    · rw [if_neg (fun he => hx (str_append_left_inj _ x.1 n he))]
      rw [List.map_cons] at hmem
      rcases List.mem_cons.mp hmem with h1 | h2
      · exact absurd h1.symm hx
      · exact ih h2

theorem lookupA_schemaRenames_none (pfx : String) (schemas : List (String × SchemaRef))
    (r : String) (h1 : ∀ m, r ≠ "#/components/schemas/" ++ m)
    (h2 : ∀ m, r ≠ "#/definitions/" ++ m) :
    lookupA (schemaRenames pfx schemas) r = none := by
  induction schemas with
  | nil => rfl
  | cons x rest ih =>
    simp only [schemaRenames, List.flatMap_cons, List.cons_append, List.nil_append, lookupA]
    rw [if_neg (fun he => h1 x.1 he.symm), if_neg (fun he => h2 x.1 he.symm)]
    exact ih

theorem applyRen_eq_of_lookup (ren : List (String × String)) (r t : String)
    (hne : r ≠ "") (h : lookupA ren r = some t) : applyRen ren r = t := by
  simp [applyRen, hne, h]

theorem applyRen_eq_of_none (ren : List (String × String)) (r : String)
    (h : lookupA ren r = none) : applyRen ren r = r := by
  by_cases hr : r = "" <;> simp [applyRen, hr, h]

theorem disputeRenames_cs (pfx : String) (c : Components) (n : String)
    (hmem : n ∈ c.schemas.map Prod.fst) :
    lookupA (disputeRenames pfx c) ("#/components/schemas/" ++ n) =
      some ("#/components/schemas/" ++ (pfx ++ n)) := by
  simp only [disputeRenames]
  exact lookupA_append_left _ _ _ _ (lookupA_append_left _ _ _ _
    (lookupA_append_left _ _ _ _ (lookupA_append_left _ _ _ _
      (lookupA_schemaRenames_cs pfx c.schemas n hmem))))

theorem disputeRenames_defs (pfx : String) (c : Components) (n : String)
    (hmem : n ∈ c.schemas.map Prod.fst) :
    lookupA (disputeRenames pfx c) ("#/definitions/" ++ n) =
      some ("#/components/schemas/" ++ (pfx ++ n)) := by
  simp only [disputeRenames]
  exact lookupA_append_left _ _ _ _ (lookupA_append_left _ _ _ _
    (lookupA_append_left _ _ _ _ (lookupA_append_left _ _ _ _
      (lookupA_schemaRenames_defs pfx c.schemas n hmem))))

theorem disputeRenames_resp (pfx : String) (c : Components) (n : String)
    (hmem : n ∈ c.responses.map Prod.fst) :
    lookupA (disputeRenames pfx c) ("#/components/responses/" ++ n) =
      some ("#/components/responses/" ++ (pfx ++ n)) := by
  simp only [disputeRenames]
  have hs : lookupA (schemaRenames pfx c.schemas) ("#/components/responses/" ++ n) = none :=
    lookupA_schemaRenames_none _ _ _
      (fun m => append_ne_of_not_prefixes "#/components/responses/" "#/components/schemas/"
        (by decide) (by decide) n m)
      (fun m => append_ne_of_not_prefixes "#/components/responses/" "#/definitions/"
        (by decide) (by decide) n m)
  have h1 : lookupA (schemaRenames pfx c.schemas ++
      kindRenames "#/components/responses/" pfx c.responses)
      ("#/components/responses/" ++ n) =
      some ("#/components/responses/" ++ (pfx ++ n)) := by
    rw [lookupA_append_right _ _ _ hs]
    exact lookupA_kindRenames_hit _ pfx c.responses n hmem
  exact lookupA_append_left _ _ _ _ (lookupA_append_left _ _ _ _
    (lookupA_append_left _ _ _ _ h1))

theorem disputeRenames_par (pfx : String) (c : Components) (n : String)
    (hmem : n ∈ c.parameters.map Prod.fst) :
    lookupA (disputeRenames pfx c) ("#/components/parameters/" ++ n) =
      some ("#/components/parameters/" ++ (pfx ++ n)) := by
  simp only [disputeRenames]
  have hs : lookupA (schemaRenames pfx c.schemas) ("#/components/parameters/" ++ n) = none :=
    lookupA_schemaRenames_none _ _ _
      (fun m => append_ne_of_not_prefixes "#/components/parameters/" "#/components/schemas/"
        (by decide) (by decide) n m)
      (fun m => append_ne_of_not_prefixes "#/components/parameters/" "#/definitions/"
        (by decide) (by decide) n m)
  have hr : lookupA (kindRenames "#/components/responses/" pfx c.responses)
      ("#/components/parameters/" ++ n) = none :=
    lookupA_kindRenames_none _ _ _ _
      (fun m => append_ne_of_not_prefixes "#/components/parameters/" "#/components/responses/"
        (by decide) (by decide) n m)
  have h1 : lookupA ((schemaRenames pfx c.schemas ++
      kindRenames "#/components/responses/" pfx c.responses) ++
      kindRenames "#/components/parameters/" pfx c.parameters)
      ("#/components/parameters/" ++ n) =
      some ("#/components/parameters/" ++ (pfx ++ n)) := by
    rw [lookupA_append_right _ _ _ (by rw [lookupA_append_right _ _ _ hs]; exact hr)]
    exact lookupA_kindRenames_hit _ pfx c.parameters n hmem
  exact lookupA_append_left _ _ _ _ (lookupA_append_left _ _ _ _ h1)

theorem disputeRenames_sec (pfx : String) (c : Components) (n : String)
    (hmem : n ∈ c.securitySchemes.map Prod.fst) :
    lookupA (disputeRenames pfx c) ("#/components/securitySchemes/" ++ n) =
      some ("#/components/securitySchemes/" ++ (pfx ++ n)) := by
  simp only [disputeRenames]
  have hs : lookupA (schemaRenames pfx c.schemas)
      ("#/components/securitySchemes/" ++ n) = none :=
    lookupA_schemaRenames_none _ _ _
      (fun m => append_ne_of_not_prefixes "#/components/securitySchemes/"
        "#/components/schemas/" (by decide) (by decide) n m)
      (fun m => append_ne_of_not_prefixes "#/components/securitySchemes/" "#/definitions/"
        (by decide) (by decide) n m)
  have hr : lookupA (kindRenames "#/components/responses/" pfx c.responses)
      ("#/components/securitySchemes/" ++ n) = none :=
    lookupA_kindRenames_none _ _ _ _
      (fun m => append_ne_of_not_prefixes "#/components/securitySchemes/"
        "#/components/responses/" (by decide) (by decide) n m)
  have hp : lookupA (kindRenames "#/components/parameters/" pfx c.parameters)
      ("#/components/securitySchemes/" ++ n) = none :=
    lookupA_kindRenames_none _ _ _ _
      (fun m => append_ne_of_not_prefixes "#/components/securitySchemes/"
        "#/components/parameters/" (by decide) (by decide) n m)
  have h1 : lookupA (((schemaRenames pfx c.schemas ++
      kindRenames "#/components/responses/" pfx c.responses) ++
      kindRenames "#/components/parameters/" pfx c.parameters) ++
      kindRenames "#/components/securitySchemes/" pfx c.securitySchemes)
      ("#/components/securitySchemes/" ++ n) =
      some ("#/components/securitySchemes/" ++ (pfx ++ n)) := by
    rw [lookupA_append_right _ _ _ (by
      rw [lookupA_append_right _ _ _ (by rw [lookupA_append_right _ _ _ hs]; exact hr)]
      exact hp)]
    exact lookupA_kindRenames_hit _ pfx c.securitySchemes n hmem
  exact lookupA_append_left _ _ _ _ h1

theorem disputeRenames_body (pfx : String) (c : Components) (n : String)
    (hmem : n ∈ c.requestBodies.map Prod.fst) :
    lookupA (disputeRenames pfx c) ("#/components/requestBodies/" ++ n) =
      some ("#/components/requestBodies/" ++ (pfx ++ n)) := by
  simp only [disputeRenames]
  have hs : lookupA (schemaRenames pfx c.schemas)
      ("#/components/requestBodies/" ++ n) = none :=
    lookupA_schemaRenames_none _ _ _
      (fun m => append_ne_of_not_prefixes "#/components/requestBodies/"
        "#/components/schemas/" (by decide) (by decide) n m)
      (fun m => append_ne_of_not_prefixes "#/components/requestBodies/" "#/definitions/"
        (by decide) (by decide) n m)
  have hr : lookupA (kindRenames "#/components/responses/" pfx c.responses)
      ("#/components/requestBodies/" ++ n) = none :=
    lookupA_kindRenames_none _ _ _ _
      (fun m => append_ne_of_not_prefixes "#/components/requestBodies/"
        "#/components/responses/" (by decide) (by decide) n m)
  have hp : lookupA (kindRenames "#/components/parameters/" pfx c.parameters)
      ("#/components/requestBodies/" ++ n) = none :=
    lookupA_kindRenames_none _ _ _ _
      (fun m => append_ne_of_not_prefixes "#/components/requestBodies/"
        "#/components/parameters/" (by decide) (by decide) n m)
  have hx : lookupA (kindRenames "#/components/securitySchemes/" pfx c.securitySchemes)
      ("#/components/requestBodies/" ++ n) = none :=
    lookupA_kindRenames_none _ _ _ _
      (fun m => append_ne_of_not_prefixes "#/components/requestBodies/"
        "#/components/securitySchemes/" (by decide) (by decide) n m)
  rw [lookupA_append_right _ _ _ (by
    rw [lookupA_append_right _ _ _ (by
      rw [lookupA_append_right _ _ _ (by rw [lookupA_append_right _ _ _ hs]; exact hr)]
      exact hp)]
    exact hx)]
  exact lookupA_kindRenames_hit _ pfx c.requestBodies n hmem

theorem collectComponents_rename (pfx : String) (c : Components) :
    collectComponents { c with
      schemas := renameKeys pfx c.schemas,
      responses := renameKeys pfx c.responses,
      parameters := renameKeys pfx c.parameters,
      securitySchemes := renameKeys pfx c.securitySchemes,
      requestBodies := renameKeys pfx c.requestBodies } = collectComponents c := by
  simp only [collectComponents]
  rw [flatMap_renameKeys pfx c.schemas, flatMap_renameKeys pfx c.parameters,
    flatMap_renameKeys pfx c.responses, flatMap_renameKeys pfx c.requestBodies]

theorem applyDisputePfx_eq (pfx : String) (d : Doc) (c : Components)
    (hc : d.components = some c) :
    applyDisputePfx pfx d = updateRefs (disputeRenames pfx c)
      { d with components := some { c with
          schemas := renameKeys pfx c.schemas,
          responses := renameKeys pfx c.responses,
          parameters := renameKeys pfx c.parameters,
          securitySchemes := renameKeys pfx c.securitySchemes,
          requestBodies := renameKeys pfx c.requestBodies } } := by
  simp only [applyDisputePfx, hc]

/-- C2: after the dispute stage with prefix `pfx`, every component of the
five renamed kinds carries the prefixed name; the reference strings at
every examined position of the document are exactly the old ones pushed
through the rename map, which sends each old-form reference of a renamed
component (for schemas both the OpenAPI 3 and the legacy
`#/definitions/` form) to the prefixed `#/components/<kind>/` form and
leaves every reference outside the map byte-for-byte unchanged. -/
theorem c2_dispute_renaming (pfx : String) (d : Doc) (c : Components)
    (_hpfx : pfx ≠ "") (hc : d.components = some c) :
    (∃ c2, (applyDisputePfx pfx d).components = some c2 ∧
      c2.schemas.map Prod.fst = (c.schemas.map Prod.fst).map (fun n => pfx ++ n) ∧
      c2.responses.map Prod.fst = (c.responses.map Prod.fst).map (fun n => pfx ++ n) ∧
      c2.parameters.map Prod.fst = (c.parameters.map Prod.fst).map (fun n => pfx ++ n) ∧
      c2.securitySchemes.map Prod.fst =
        (c.securitySchemes.map Prod.fst).map (fun n => pfx ++ n) ∧
      c2.requestBodies.map Prod.fst =
        (c.requestBodies.map Prod.fst).map (fun n => pfx ++ n)) ∧
    collectDocRefs (applyDisputePfx pfx d) =
      (collectDocRefs d).map (applyRen (disputeRenames pfx c)) ∧
    (∀ n, n ∈ c.schemas.map Prod.fst →
      applyRen (disputeRenames pfx c) ("#/components/schemas/" ++ n) =
        "#/components/schemas/" ++ (pfx ++ n) ∧
      applyRen (disputeRenames pfx c) ("#/definitions/" ++ n) =
        "#/components/schemas/" ++ (pfx ++ n)) ∧
    (∀ n, n ∈ c.responses.map Prod.fst →
      applyRen (disputeRenames pfx c) ("#/components/responses/" ++ n) =
        "#/components/responses/" ++ (pfx ++ n)) ∧
    (∀ n, n ∈ c.parameters.map Prod.fst →
      applyRen (disputeRenames pfx c) ("#/components/parameters/" ++ n) =
        "#/components/parameters/" ++ (pfx ++ n)) ∧
    (∀ n, n ∈ c.securitySchemes.map Prod.fst →
      applyRen (disputeRenames pfx c) ("#/components/securitySchemes/" ++ n) =
        "#/components/securitySchemes/" ++ (pfx ++ n)) ∧
    (∀ n, n ∈ c.requestBodies.map Prod.fst →
      applyRen (disputeRenames pfx c) ("#/components/requestBodies/" ++ n) =
        "#/components/requestBodies/" ++ (pfx ++ n)) ∧
    (∀ r, lookupA (disputeRenames pfx c) r = none →
      applyRen (disputeRenames pfx c) r = r) := by
  rw [applyDisputePfx_eq pfx d c hc]
  refine ⟨?_, ?_, ?_, ?_, ?_, ?_, ?_, ?_⟩
  · by_cases he : (disputeRenames pfx c).isEmpty
    · have hcomp : (updateRefs (disputeRenames pfx c)
          { d with components := some { c with
              schemas := renameKeys pfx c.schemas,
              responses := renameKeys pfx c.responses,
              parameters := renameKeys pfx c.parameters,
              securitySchemes := renameKeys pfx c.securitySchemes,
              requestBodies := renameKeys pfx c.requestBodies } }).components =
          some { c with
              schemas := renameKeys pfx c.schemas,
              responses := renameKeys pfx c.responses,
              parameters := renameKeys pfx c.parameters,
              securitySchemes := renameKeys pfx c.securitySchemes,
              requestBodies := renameKeys pfx c.requestBodies } := by
        simp only [updateRefs, if_pos he]
      refine ⟨_, hcomp, ?_, ?_, ?_, ?_, ?_⟩ <;> simp [renameKeys_keys]
    · have hcomp : (updateRefs (disputeRenames pfx c)
          { d with components := some { c with
              schemas := renameKeys pfx c.schemas,
              responses := renameKeys pfx c.responses,
              parameters := renameKeys pfx c.parameters,
              securitySchemes := renameKeys pfx c.securitySchemes,
              requestBodies := renameKeys pfx c.requestBodies } }).components =
          some (updateComponentsRefs (disputeRenames pfx c) { c with
              schemas := renameKeys pfx c.schemas,
              responses := renameKeys pfx c.responses,
              parameters := renameKeys pfx c.parameters,
              securitySchemes := renameKeys pfx c.securitySchemes,
              requestBodies := renameKeys pfx c.requestBodies }) := by
        simp only [updateRefs, if_neg he, Option.map_some']
      refine ⟨_, hcomp, ?_, ?_, ?_, ?_, ?_⟩ <;>
        simp [updateComponentsRefs, renameKeys, List.map_map, Function.comp]
  · rw [collect_updateRefs]
    congr 1
    simp only [collectDocRefs, hc]
    congr 1
    exact collectComponents_rename pfx c
  · intro n hn
    exact ⟨applyRen_eq_of_lookup _ _ _ (str_append_ne_empty _ n (by decide))
        (disputeRenames_cs pfx c n hn),
      applyRen_eq_of_lookup _ _ _ (str_append_ne_empty _ n (by decide))
        (disputeRenames_defs pfx c n hn)⟩
  · intro n hn
    exact applyRen_eq_of_lookup _ _ _ (str_append_ne_empty _ n (by decide))
      (disputeRenames_resp pfx c n hn)
  · intro n hn
    exact applyRen_eq_of_lookup _ _ _ (str_append_ne_empty _ n (by decide))
      (disputeRenames_par pfx c n hn)
  · intro n hn
    exact applyRen_eq_of_lookup _ _ _ (str_append_ne_empty _ n (by decide))
      (disputeRenames_sec pfx c n hn)
  · intro n hn
    exact applyRen_eq_of_lookup _ _ _ (str_append_ne_empty _ n (by decide))
      (disputeRenames_body pfx c n hn)
  · intro r hr
    exact applyRen_eq_of_none _ r hr

def schemaRefC2 : SchemaRef := .mk "#/components/schemas/User" none

def schemaUserC2 : SchemaRef :=
  .mk "" (some (.mk "object" "" "" none [("friend", schemaRefC2)] none [] [] [] none))

def compsC2 : Components := { compsEmpty with schemas := [("User", schemaUserC2)] }

def docC2 : Doc := ⟨[], some compsC2, []⟩

theorem c2_dispute_renaming_witness :
    (∃ c2, (applyDisputePfx "P" docC2).components = some c2 ∧
      c2.schemas.map Prod.fst = (compsC2.schemas.map Prod.fst).map (fun n => "P" ++ n) ∧
      c2.responses.map Prod.fst = (compsC2.responses.map Prod.fst).map (fun n => "P" ++ n) ∧
      c2.parameters.map Prod.fst = (compsC2.parameters.map Prod.fst).map (fun n => "P" ++ n) ∧
      c2.securitySchemes.map Prod.fst =
        (compsC2.securitySchemes.map Prod.fst).map (fun n => "P" ++ n) ∧
      c2.requestBodies.map Prod.fst =
        (compsC2.requestBodies.map Prod.fst).map (fun n => "P" ++ n)) ∧
    collectDocRefs (applyDisputePfx "P" docC2) =
      (collectDocRefs docC2).map (applyRen (disputeRenames "P" compsC2)) ∧
    (∀ n, n ∈ compsC2.schemas.map Prod.fst →
      applyRen (disputeRenames "P" compsC2) ("#/components/schemas/" ++ n) =
        "#/components/schemas/" ++ ("P" ++ n) ∧
      applyRen (disputeRenames "P" compsC2) ("#/definitions/" ++ n) =
        "#/components/schemas/" ++ ("P" ++ n)) ∧
    (∀ n, n ∈ compsC2.responses.map Prod.fst →
      applyRen (disputeRenames "P" compsC2) ("#/components/responses/" ++ n) =
        "#/components/responses/" ++ ("P" ++ n)) ∧
    (∀ n, n ∈ compsC2.parameters.map Prod.fst →
      applyRen (disputeRenames "P" compsC2) ("#/components/parameters/" ++ n) =
        "#/components/parameters/" ++ ("P" ++ n)) ∧
    (∀ n, n ∈ compsC2.securitySchemes.map Prod.fst →
      applyRen (disputeRenames "P" compsC2) ("#/components/securitySchemes/" ++ n) =
        "#/components/securitySchemes/" ++ ("P" ++ n)) ∧
    (∀ n, n ∈ compsC2.requestBodies.map Prod.fst →
      applyRen (disputeRenames "P" compsC2) ("#/components/requestBodies/" ++ n) =
        "#/components/requestBodies/" ++ ("P" ++ n)) ∧
    (∀ r, lookupA (disputeRenames "P" compsC2) r = none →
      applyRen (disputeRenames "P" compsC2) r = r) :=
  c2_dispute_renaming "P" docC2 compsC2 (by decide) rfl
